import Mathlib

/-!
Shallow embedding of the KG build pipeline (stages 01-06) of the
graph-corag repository, together with theorems settling the frozen claims
C1..C10 about it.

Source files embedded:
  - src/kb/build/common.py            (normalize_surface, slugify, readers)
  - src/kb/build/01_build_entity_catalog.py
  - src/kb/build/02_build_edges_umls.py
  - src/kb/build/03_build_edges_sider.py
  - src/kb/build/04_build_edges_ctd.py
  - src/kb/build/05_merge_edges.py
  - src/kb/build/06_build_umls_dict_and_overlay.py

Modelling conventions:
  - Python strings are Lean `String` (list of Unicode chars).  The Python
    functions `str.lower`/`str.upper`/`str.isdigit` and the regex class
    `\s` are modelled on the ASCII fragment (the concrete inputs of the
    claims are ASCII).
  - File I/O is modelled away: a stage is a function from the field rows
    of its input files (each row a `List String`, already split on the
    delimiter) to its output records.  Writing records to disk and
    re-reading them in a later stage is the identity on the carried
    values.
  - Python floats are modelled as exact decimal numbers `num / 10 ^ exp`
    (`DecNum`).  All float operations performed by the pipeline are
    parsing decimal literals, comparison, max, and fixed-point
    formatting, which are exact on this fragment; IEEE-754 rounding of
    long mantissas, `inf` and `nan` are outside the model.
  - Python `dict` (insertion ordered, assignment replaces in place) is an
    association list with in-place replacement; Python `set` is a
    duplicate-free list, with insertion order fixed arbitrarily where
    Python leaves the iteration order unspecified (all claims are
    insensitive to that order because outputs are sorted).
-/

/-! ## Python string primitives (ASCII fragment) -/

/-- Whitespace class of Python's `str.strip` and of the regex `\s`
(ASCII fragment). -/
def pyIsSpace (c : Char) : Bool :=
  c = ' ' || c = '\t' || c = '\n' || c = '\r' || c = '\x0b' || c = '\x0c'

/-- Character list with leading and trailing whitespace removed. -/
def stripChars (l : List Char) : List Char :=
  ((l.dropWhile pyIsSpace).reverse.dropWhile pyIsSpace).reverse

/-- Python `str.strip()` (no arguments): trim whitespace at both ends. -/
def pyStrip (s : String) : String := ⟨stripChars s.data⟩

/-- Python `str.lower()` on the ASCII fragment. -/
def pyLower (s : String) : String := ⟨s.data.map Char.toLower⟩

/-- Python `str.upper()` on the ASCII fragment. -/
def pyUpper (s : String) : String := ⟨s.data.map Char.toUpper⟩

/-- Replace each maximal run of whitespace by a single space; the flag
records whether the previous character was part of a whitespace run.
Models `re.sub(r"\s+", " ", s)`. -/
def collapseWSAux : Bool → List Char → List Char
  | _, [] => []
  | prevSpace, c :: cs =>
    if pyIsSpace c then
      if prevSpace then collapseWSAux true cs
      else ' ' :: collapseWSAux true cs
    else c :: collapseWSAux false cs

def collapseWS (l : List Char) : List Char := collapseWSAux false l

/-- Embeds `normalize_surface` of src/kb/build/common.py:
`re.sub(r"\s+", " ", (text or "").strip().lower())`. -/
def normalize_surface (s : String) : String :=
  ⟨collapseWS (pyLower (pyStrip s)).data⟩

/-- Characters kept by the slugifier: the class `[a-z0-9]`. -/
def isAlnumLower (c : Char) : Bool :=
  (97 ≤ c.toNat && c.toNat ≤ 122) || (48 ≤ c.toNat && c.toNat ≤ 57)

/-- Replace each maximal run of characters outside `[a-z0-9]` by one
underscore.  Models `re.sub(r"[^a-z0-9]+", "_", s)`. -/
def subNonAlnumAux : Bool → List Char → List Char
  | _, [] => []
  | prevRep, c :: cs =>
    if isAlnumLower c then c :: subNonAlnumAux false cs
    else if prevRep then subNonAlnumAux true cs
    else '_' :: subNonAlnumAux true cs

def subNonAlnum (l : List Char) : List Char := subNonAlnumAux false l

/-- Collapse runs of underscores to one.  Models `re.sub(r"_+", "_", s)`. -/
def collapseUnderAux : Bool → List Char → List Char
  | _, [] => []
  | prevU, c :: cs =>
    if c = '_' then
      if prevU then collapseUnderAux true cs
      else '_' :: collapseUnderAux true cs
    else c :: collapseUnderAux false cs

def collapseUnder (l : List Char) : List Char := collapseUnderAux false l

/-- Python `s.strip("_")`. -/
def stripUnders (l : List Char) : List Char :=
  ((l.dropWhile (· = '_')).reverse.dropWhile (· = '_')).reverse

/-- Embeds `slugify` of src/kb/build/common.py. -/
def slugify (s : String) : String :=
  let s1 := collapseWS (pyLower (pyStrip s)).data
  let s2 := subNonAlnum s1
  let s3 := stripUnders (collapseUnder s2)
  if s3.isEmpty then "unknown" else ⟨s3⟩

/-- Boolean test that one character list starts with another (Python
`str.startswith` / component of substring search). -/
def startsWithChars : List Char → List Char → Bool
  | [], _ => true
  | _ :: _, [] => false
  | a :: ps, b :: ls => a = b && startsWithChars ps ls

/-- Python's `sub in s` substring test. -/
def containsSubAux (sub : List Char) : List Char → Bool
  | [] => startsWithChars sub []
  | c :: cs => startsWithChars sub (c :: cs) || containsSubAux sub cs

def containsSub (s sub : String) : Bool := containsSubAux sub.data s.data

/-! ## Lexicographic order on strings (Python code-point comparison) -/

/-- Strict lexicographic comparison of character lists by code point,
the order Python uses to compare and sort strings. -/
def lexLt : List Char → List Char → Bool
  | [], [] => false
  | [], _ :: _ => true
  | _ :: _, [] => false
  | a :: as, b :: bs => a.toNat < b.toNat || (a = b && lexLt as bs)

def strLt (a b : String) : Bool := lexLt a.data b.data

def strLe (a b : String) : Bool := strLt a b || a = b

/-- Stable insertion into a sorted list: the new element goes before the
first element it is not greater than.  Used to model Python `sorted`. -/
def insertOrd {α : Type} (lt : α → α → Bool) (x : α) : List α → List α
  | [] => [x]
  | y :: ys => if lt y x then y :: insertOrd lt x ys else x :: y :: ys

/-- Insertion sort; agrees with Python `sorted` for a strict total
order `lt` (stability is irrelevant at the call sites below because the
sorted lists are duplicate-free). -/
def sortOrd {α : Type} (lt : α → α → Bool) : List α → List α
  | [] => []
  | x :: xs => insertOrd lt x (sortOrd lt xs)

/-- Python `sorted` on a list of strings. -/
def sortStr (l : List String) : List String := sortOrd strLt l

/-! ## Exact decimal model of the Python floats used by the pipeline -/

/-- Exact decimal number `num / 10 ^ exp`.  Models the Python floats the
pipeline manipulates (parsed decimal literals, the constants 1.0, 0.9
and 0.75); parsing, comparison, max and fixed-point formatting are exact
on this fragment. -/
structure DecNum where
  num : Int
  exp : Nat
deriving DecidableEq, Repr

/-- Value comparison `a < b` (cross multiplication). -/
def DecNum.ltb (a b : DecNum) : Bool :=
  a.num * (10 : Int) ^ b.exp < b.num * (10 : Int) ^ a.exp

/-- Value comparison `a ≤ b`. -/
def DecNum.leb (a b : DecNum) : Bool :=
  a.num * (10 : Int) ^ b.exp ≤ b.num * (10 : Int) ^ a.exp

def decOne : DecNum := ⟨1, 0⟩

/-- ASCII decimal digit test (Python `str.isdigit` restricted to ASCII). -/
def isDigitChar (c : Char) : Bool := 48 ≤ c.toNat && c.toNat ≤ 57

def digitVal (c : Char) : Nat := c.toNat - 48

def natOfDigits (l : List Char) : Nat :=
  l.foldl (fun acc c => 10 * acc + digitVal c) 0

/-- Optional leading sign of a Python float literal; returns
(isNegative, rest). -/
def splitSign : List Char → Bool × List Char
  | '+' :: r => (false, r)
  | '-' :: r => (true, r)
  | l => (false, l)

/-- Mantissa of a Python float literal: `digits`, `digits.digits`,
`digits.` or `.digits`; yields (integer digits, fraction digits, rest),
or none when no digit is present. -/
def parseMantissa (l : List Char) : Option (List Char × List Char × List Char) :=
  let ip := l.takeWhile isDigitChar
  let r1 := l.dropWhile isDigitChar
  match r1 with
  | '.' :: r2 =>
    let fp := r2.takeWhile isDigitChar
    let r3 := r2.dropWhile isDigitChar
    if ip.isEmpty && fp.isEmpty then none else some (ip, fp, r3)
  | _ => if ip.isEmpty then none else some (ip, [], r1)

/-- Exponent suffix of a Python float literal (empty, or `e`/`E`, an
optional sign and digits). -/
def parseExpPart : List Char → Option Int
  | [] => some 0
  | c :: r =>
    if c = 'e' || c = 'E' then
      let (neg, r2) := splitSign r
      let ds := r2.takeWhile isDigitChar
      let r3 := r2.dropWhile isDigitChar
      if ds.isEmpty || !r3.isEmpty then none
      else some (if neg then -(natOfDigits ds : Int) else (natOfDigits ds : Int))
    else none

/-- Assemble a decimal value from sign, digits and exponent:
`(sign) ip.fp * 10 ^ e`. -/
def decOfParts (neg : Bool) (ip fp : List Char) (e : Int) : DecNum :=
  let mant : Int := (natOfDigits (ip ++ fp) : Int)
  let mant := if neg then -mant else mant
  let shift : Int := e - (fp.length : Int)
  if 0 ≤ shift then ⟨mant * (10 : Int) ^ shift.toNat, 0⟩
  else ⟨mant, (-shift).toNat⟩

/-- Model of Python `float(s)` on finite decimal/scientific literals:
returns none when `s` is not such a literal (`inf`, `nan` and underscore
separators are outside the model). -/
def parseFloat (s : String) : Option DecNum :=
  let (neg, r) := splitSign s.data
  match parseMantissa r with
  | none => none
  | some (ip, fp, rest) =>
    match parseExpPart rest with
    | none => none
    | some e => some (decOfParts neg ip fp e)

/-- Round `q * 10^4` to an integer, half to even, where `q` is the value
of `d` — the rounding Python's `f"{x:.4f}"` performs (exact on decimals
that a binary64 float represents exactly; ties of longer mantissas are
decided by the binary value in Python, outside this model). -/
def round4 (d : DecNum) : Int :=
  let nTen : Int := (10 : Int) ^ d.exp
  let scaled : Int := d.num * 10000
  let q := scaled / nTen
  let r := scaled % nTen
  if 2 * r < nTen then q
  else if nTen < 2 * r then q + 1
  else if q % 2 = 0 then q else q + 1

/-- Left-pad with zeros to 4 digits. -/
def pad4 (n : Nat) : String :=
  let s := Nat.repr n
  ⟨List.replicate (4 - s.length) '0' ++ s.data⟩

/-- Python `f"{x:.4f}"` for the values the merger formats. -/
def format4 (d : DecNum) : String :=
  let m := round4 d
  let sign := if m < 0 then "-" else ""
  let a := m.natAbs
  sign ++ Nat.repr (a / 10000) ++ "." ++ pad4 (a % 10000)

/-! ## Association lists (Python dict) and duplicate-free lists (set) -/

/-- Lookup in an insertion-ordered association list (Python `d[k]` /
`d.get(k)`). -/
def alistGet {α : Type} (l : List (String × α)) (k : String) : Option α :=
  match l.find? (fun p => p.1 = k) with
  | some p => some p.2
  | none => none

/-- Python `d[k] = v`: replace the value in place if the key is present,
otherwise append the binding. -/
def alistPut {α : Type} : List (String × α) → String → α → List (String × α)
  | [], k, v => [(k, v)]
  | p :: ps, k, v => if p.1 = k then (k, v) :: ps else p :: alistPut ps k v

/-- Python `set.add`: append the element unless already present. -/
def addSet (l : List String) (x : String) : List String :=
  if x ∈ l then l else l ++ [x]

/-- Python `defaultdict(set)[k].add(v)`. -/
def multiAdd (l : List (String × List String)) (k v : String) :
    List (String × List String) :=
  match alistGet l k with
  | some vs => alistPut l k (addSet vs v)
  | none => l ++ [(k, [v])]

/-- Collect a list into a duplicate-free list (Python `set(l)`, with the
first-occurrence order as the fixed iteration order). -/
def listToSet (l : List String) : List String := l.foldl addSet []

/-- Python `"|".join(l)`. -/
def pipeJoin : List String → String
  | [] => ""
  | [x] => x
  | x :: xs => x ++ "|" ++ pipeJoin xs

/-- Python `s.split("|")`. -/
def splitPipeChars : List Char → List String
  | [] => [""]
  | c :: cs =>
    if c = '|' then "" :: splitPipeChars cs
    else
      match splitPipeChars cs with
      | [] => [⟨[c]⟩]
      | t :: ts => (⟨c :: t.data⟩ : String) :: ts

def splitPipe (s : String) : List String := splitPipeChars s.data

/-! ## Order lemmas for the string comparison and the sort -/

theorem charEq_of_toNat {a b : Char} (h : a.toNat = b.toNat) : a = b :=
  Char.ext (UInt32.ext h)

theorem strEq_of_data {a b : String} (h : a.data = b.data) : a = b := by
  cases a; cases b; cases h; rfl

theorem lexLt_irrefl : ∀ l : List Char, lexLt l l = false
  | [] => rfl
  | a :: as => by
    simp only [lexLt, Bool.or_eq_false_iff, Bool.and_eq_false_iff]
    exact ⟨by simp, Or.inr (lexLt_irrefl as)⟩

theorem lexLt_trans : ∀ {a b c : List Char},
    lexLt a b = true → lexLt b c = true → lexLt a c = true
  | [], [], _, h1, _ => by simp [lexLt] at h1
  | [], _ :: _, [], _, h2 => by simp [lexLt] at h2
  | [], _ :: _, _ :: _, _, _ => rfl
  | _ :: _, [], _, h1, _ => by simp [lexLt] at h1
  | _ :: _, _ :: _, [], _, h2 => by simp [lexLt] at h2
  | x :: xs, y :: ys, z :: zs, h1, h2 => by
    simp only [lexLt, Bool.or_eq_true, Bool.and_eq_true, decide_eq_true_eq] at h1 h2 ⊢
    rcases h1 with h1 | ⟨hxy, h1⟩
    · rcases h2 with h2 | ⟨hyz, h2⟩
      · exact Or.inl (Nat.lt_trans h1 h2)
      · exact Or.inl (hyz ▸ h1)
    · rcases h2 with h2 | ⟨hyz, h2⟩
      · exact Or.inl (hxy ▸ h2)
      · exact Or.inr ⟨hxy.trans hyz, lexLt_trans h1 h2⟩

theorem lexLt_connex : ∀ {a b : List Char},
    lexLt a b = false → lexLt b a = false → a = b
  | [], [], _, _ => rfl
  | [], _ :: _, h1, _ => by simp [lexLt] at h1
  | _ :: _, [], _, h2 => by simp [lexLt] at h2
  | x :: xs, y :: ys, h1, h2 => by
    simp only [lexLt, Bool.or_eq_false_iff, Bool.and_eq_false_iff,
      decide_eq_false_iff_not] at h1 h2
    have hxy : x = y := charEq_of_toNat (Nat.le_antisymm
      (Nat.le_of_not_lt h2.1) (Nat.le_of_not_lt h1.1))
    rcases h1.2 with h | h
    · exact absurd hxy h
    · rcases h2.2 with h2' | h2'
      · exact absurd hxy.symm h2'
      · exact hxy ▸ congrArg (x :: ·) (lexLt_connex h h2')

theorem lexLt_asymm {a b : List Char} (h : lexLt a b = true) : lexLt b a = false := by
  by_contra hc
  have := lexLt_trans h (Bool.of_not_eq_false hc)
  rw [lexLt_irrefl] at this
  exact Bool.false_ne_true this

theorem strLt_irrefl (a : String) : strLt a a = false := lexLt_irrefl a.data

theorem strLt_trans {a b c : String} (h1 : strLt a b = true) (h2 : strLt b c = true) :
    strLt a c = true := lexLt_trans h1 h2

theorem strLt_connex {a b : String} (h1 : strLt a b = false) (h2 : strLt b a = false) :
    a = b := strEq_of_data (lexLt_connex h1 h2)

theorem strLt_asymm {a b : String} (h : strLt a b = true) : strLt b a = false :=
  lexLt_asymm h

theorem strLt_le_trans {a b c : String} (h1 : strLt b a = false)
    (h2 : strLt c b = false) : strLt c a = false := by
  by_contra hc
  have hca := Bool.of_not_eq_false hc
  cases hyb : strLt b c with
  | true => exact Bool.noConfusion ((strLt_trans hyb hca).symm.trans h1)
  | false => exact Bool.noConfusion ((strLt_connex h2 hyb ▸ hca).symm.trans h1)

theorem insertOrd_perm {α : Type} (lt : α → α → Bool) (x : α) (l : List α) :
    (insertOrd lt x l).Perm (x :: l) := by
  induction l with
  | nil => exact List.Perm.refl _
  | cons y ys ih =>
    simp only [insertOrd]
    by_cases h : lt y x = true
    · rw [if_pos h]
      exact (ih.cons y).trans (List.Perm.swap x y ys)
    · rw [if_neg h]

theorem sortOrd_perm {α : Type} (lt : α → α → Bool) (l : List α) :
    (sortOrd lt l).Perm l := by
  induction l with
  | nil => exact List.Perm.refl _
  | cons x xs ih => exact (insertOrd_perm lt x (sortOrd lt xs)).trans (ih.cons x)

theorem mem_sortOrd {α : Type} {lt : α → α → Bool} {x : α} {l : List α} :
    x ∈ sortOrd lt l ↔ x ∈ l := (sortOrd_perm lt l).mem_iff

theorem sortOrd_nodup {α : Type} (lt : α → α → Bool) {l : List α}
    (h : l.Nodup) : (sortOrd lt l).Nodup :=
  h.perm (sortOrd_perm lt l).symm

theorem insertOrd_pairwise {α : Type} (lt : α → α → Bool)
    (hasym : ∀ {a b : α}, lt a b = true → lt b a = false)
    (hletr : ∀ {a b c : α}, lt b a = false → lt c b = false → lt c a = false)
    (x : α) {l : List α} (hl : List.Pairwise (fun a b => lt b a = false) l) :
    List.Pairwise (fun a b => lt b a = false) (insertOrd lt x l) := by
  induction l with
  | nil => simp [insertOrd]
  | cons y ys ih =>
    rcases List.pairwise_cons.mp hl with ⟨hy, hys⟩
    simp only [insertOrd]
    by_cases h : lt y x = true
    · rw [if_pos h]
      refine List.pairwise_cons.mpr ⟨?_, ih hys⟩
      intro z hz
      rcases List.mem_cons.mp ((insertOrd_perm lt x ys).mem_iff.mp hz) with hz | hz
      · rw [hz]; exact hasym h
      · exact hy z hz
    · rw [if_neg h]
      refine List.pairwise_cons.mpr ⟨?_, hl⟩
      intro z hz
      rcases List.mem_cons.mp hz with hz | hz
      · rw [hz]; exact Bool.eq_false_iff.mpr h
      · exact hletr (Bool.eq_false_iff.mpr h) (hy z hz)

theorem sortOrd_pairwise {α : Type} (lt : α → α → Bool)
    (hasym : ∀ {a b : α}, lt a b = true → lt b a = false)
    (hletr : ∀ {a b c : α}, lt b a = false → lt c b = false → lt c a = false)
    (l : List α) :
    List.Pairwise (fun a b => lt b a = false) (sortOrd lt l) := by
  induction l with
  | nil => simp [sortOrd]
  | cons x xs ih => exact insertOrd_pairwise lt hasym hletr x ih

theorem pairwise_strict_of_nodup {α : Type} {lt : α → α → Bool}
    (hconn : ∀ {a b : α}, lt a b = false → lt b a = false → a = b)
    {l : List α} (hnd : l.Nodup)
    (hp : List.Pairwise (fun a b => lt b a = false) l) :
    List.Pairwise (fun a b => lt a b = true) l := by
  refine (hp.and hnd).imp ?_
  rintro a b ⟨hba, hne⟩
  by_contra hc
  exact hne (hconn (Bool.eq_false_iff.mpr hc) hba)

theorem sortStr_pairwise (l : List String) :
    List.Pairwise (fun a b => strLt b a = false) (sortStr l) :=
  sortOrd_pairwise strLt (fun h => strLt_asymm h)
    (fun h1 h2 => strLt_le_trans h1 h2) l

theorem sortStr_eq_of_equiv {l1 l2 : List String} (h1 : l1.Nodup) (h2 : l2.Nodup)
    (hmem : ∀ x, x ∈ l1 ↔ x ∈ l2) : sortStr l1 = sortStr l2 := by
  have hperm : l1.Perm l2 := (List.perm_ext_iff_of_nodup h1 h2).mpr hmem
  have hp : (sortStr l1).Perm (sortStr l2) :=
    ((sortOrd_perm strLt l1).trans hperm).trans (sortOrd_perm strLt l2).symm
  have hs1 := sortStr_pairwise l1
  have hs2 := sortStr_pairwise l2
  exact @List.eq_of_perm_of_sorted String (fun a b => strLt b a = false)
    ⟨fun a b hab hba => strLt_connex hba hab⟩ _ _ hp hs1 hs2

/-! ## Stage 01 — entity catalog (src/kb/build/01_build_entity_catalog.py) -/

/-- Catalog record, one JSON object of entity_catalog.jsonl. -/
structure ConceptRec where
  kg_id : String
  cui : String
  entity_type : String
  canonical_name : String
  synonyms : List String
  sources : List String
deriving DecidableEq, Repr

def DRUG_TUIS : List String :=
  ["T109", "T110", "T116", "T121", "T126", "T129", "T130", "T195", "T200"]

def DISEASE_TUIS : List String := ["T047", "T048", "T184", "T191"]

def CHEMICAL_TUIS : List String :=
  ["T103", "T104", "T109", "T110", "T111", "T114", "T115", "T116", "T196"]

def GENE_TUIS : List String := ["T028", "T085", "T086", "T087", "T088"]

/-- Embeds `infer_entity_type`: first-match priority drug, disease,
chemical, gene; fallback string is "entity" in the source. -/
def infer_entity_type (tuis : List String) : String :=
  if tuis.any (fun t => DRUG_TUIS.contains t) then "drug"
  else if tuis.any (fun t => DISEASE_TUIS.contains t) then "disease"
  else if tuis.any (fun t => CHEMICAL_TUIS.contains t) then "chemical"
  else if tuis.any (fun t => GENE_TUIS.contains t) then "gene"
  else "entity"

/-- Embeds `kg_id_for`. -/
def kg_id_for (cui canonical entity_type : String) : String :=
  if entity_type = "drug" ∨ entity_type = "disease" ∨ entity_type = "chemical"
      ∨ entity_type = "gene" then
    entity_type ++ "_" ++ slugify canonical
  else "umls_" ++ pyLower cui

/-- MRSTY pass of `build`: accumulate the TUI set of each CUI
(`cui_tuis`). -/
def mrstyStep (acc : List (String × List String)) (fields : List String) :
    List (String × List String) :=
  if fields.length < 4 then acc
  else
    let cui := pyUpper (pyStrip (fields.getD 0 ""))
    let tui := pyUpper (pyStrip (fields.getD 1 ""))
    if cui ≠ "" ∧ tui ≠ "" then multiAdd acc cui tui else acc

def buildCuiTuis (rows : List (List String)) : List (String × List String) :=
  rows.foldl mrstyStep []

/-- Mutable state of the MRCONSO pass of `build`: the catalog keyed by
kg_id, `cui_to_kg`, and the `cui_seen` set. -/
structure CatState where
  catalog : List ConceptRec
  cuiToKg : List (String × String)
  cuiSeen : List String
deriving Repr

/-- Lookup of `catalog[kg_id]`. -/
def getConcept (cat : List ConceptRec) (k : String) : Option ConceptRec :=
  cat.find? (fun c => c.kg_id = k)

/-- In-place update of `catalog[kg_id]` (first matching record). -/
def updateConcept : List ConceptRec → String → (ConceptRec → ConceptRec) → List ConceptRec
  | [], _, _ => []
  | c :: cs, k, f => if c.kg_id = k then f c :: cs else c :: updateConcept cs k f

/-- Python `catalog[kg_id] = record`: replace in place, else append. -/
def putConcept (cat : List ConceptRec) (c : ConceptRec) : List ConceptRec :=
  match getConcept cat c.kg_id with
  | some _ => updateConcept cat c.kg_id (fun _ => c)
  | none => cat ++ [c]

/-- One MRCONSO row of the catalog pass of `build`
(src/kb/build/01_build_entity_catalog.py lines 98-132). -/
def mrconsoStep (cuiTuis : List (String × List String)) (st : CatState)
    (fields : List String) : CatState :=
  if fields.length < 15 then st
  else
    let cui := pyUpper (pyStrip (fields.getD 0 ""))
    let lat := pyUpper (pyStrip (fields.getD 1 ""))
    let isPref := pyUpper (pyStrip (fields.getD 6 "")) = "Y"
    let text := pyStrip (fields.getD 14 "")
    if cui = "" ∨ text = "" then st
    else if lat ≠ "ENG" then st
    else
      let etype := infer_entity_type ((alistGet cuiTuis cui).getD [])
      if etype = "entity" then st
      else if cui ∈ st.cuiSeen then
        match alistGet st.cuiToKg cui with
        | none => st
        | some kgId =>
          { st with catalog := updateConcept st.catalog kgId (fun c =>
              { c with
                canonical_name := if isPref then text else c.canonical_name,
                synonyms := addSet c.synonyms text }) }
      else
        let kgId := kg_id_for cui text etype
        { catalog := putConcept st.catalog
            ⟨kgId, cui, etype, text, [text], ["UMLS"]⟩,
          cuiToKg := alistPut st.cuiToKg cui kgId,
          cuiSeen := st.cuiSeen ++ [cui] }

def catalogAfterMrconso (cuiTuis : List (String × List String))
    (mrconso : List (List String)) : CatState :=
  mrconso.foldl (mrconsoStep cuiTuis) ⟨[], [], []⟩

/-- Surface index `by_norm_surface` built from every concept × every
synonym (lines 134-136). -/
def buildByNorm (cat : List ConceptRec) : List (String × List String) :=
  cat.foldl (fun acc c =>
    c.synonyms.foldl (fun a s => multiAdd a (normalize_surface s) c.kg_id) acc) []

/-- Embeds `_add_synonym` (lines 51-66); returns the updated catalog and
the accepted flag. -/
def addSynonym (cat : List ConceptRec) (byNorm : List (String × List String))
    (kgId value source : String) : List ConceptRec × Bool :=
  let s := pyStrip value
  if s.data.length < 2 then (cat, false)
  else
    let n := normalize_surface s
    match alistGet byNorm n with
    | none => (cat, false)
    | some hits =>
      if hits.length ≠ 1 then (cat, false)
      else
        let tgt := hits.headD ""
        if tgt ≠ kgId then (cat, false)
        else
          (updateConcept cat kgId (fun c =>
            { c with synonyms := addSet c.synonyms s,
                     sources := addSet c.sources source }), true)

/-- Shared per-name enrichment step: iterate over the hit set of the
normalized surface and call `_add_synonym` on every hit whose concept
has the source's entity type (lines 149-153, 169-174, 186-191). -/
def enrichName (byNorm : List (String × List String)) (etype source : String)
    (cat : List ConceptRec) (name : String) : List ConceptRec :=
  ((alistGet byNorm (normalize_surface name)).getD []).foldl
    (fun c kgId =>
      match getConcept c kgId with
      | some con => if con.entity_type = etype then (addSynonym c byNorm kgId name source).1 else c
      | none => c)
    cat

/-- RxNorm enrichment: one RXNCONSO row (lines 140-153). -/
def rxnormStep (byNorm : List (String × List String)) (cat : List ConceptRec)
    (fields : List String) : List ConceptRec :=
  if fields.length < 15 then cat
  else
    let sab := pyUpper (pyStrip (fields.getD 11 ""))
    let tty := pyUpper (pyStrip (fields.getD 12 ""))
    let text := pyStrip (fields.getD 14 "")
    if sab ≠ "RXNORM" ∨ tty ∉ ["IN", "BN", "PIN"] then cat
    else enrichName byNorm "drug" "RxNorm" cat text

/-- DrugBank enrichment: one drug element, given as its collected
name/brand/synonym strings (lines 158-174; XML traversal is out of the
model, the per-drug name set is handed in as a list). -/
def drugbankStep (byNorm : List (String × List String)) (cat : List ConceptRec)
    (names : List String) : List ConceptRec :=
  names.foldl (enrichName byNorm "drug" "DrugBank") cat

/-- MeSH enrichment: one DescriptorRecord, given as its collected
descriptor/term strings (lines 177-191). -/
def meshStep (byNorm : List (String × List String)) (cat : List ConceptRec)
    (terms : List String) : List ConceptRec :=
  terms.foldl (enrichName byNorm "disease" "MeSH") cat

/-- Output pass (lines 193-207): emit concepts in sorted kg_id order,
with synonyms and sources sorted and de-duplicated. -/
def emitCatalog (cat : List ConceptRec) : List ConceptRec :=
  (sortOrd (fun a b => strLt a.kg_id b.kg_id) cat).map (fun c =>
    { c with synonyms := sortStr c.synonyms.dedup,
             sources := sortStr c.sources.dedup })

/-- Embeds `build` of stage 01 end to end: MRSTY rows, MRCONSO rows,
RXNCONSO rows, DrugBank drugs (name lists) and MeSH descriptors (term
lists) to the emitted catalog. -/
def buildCatalog (mrsty mrconso rxn : List (List String))
    (drugbank mesh : List (List String)) : List ConceptRec :=
  let cuiTuis := buildCuiTuis mrsty
  let st := catalogAfterMrconso cuiTuis mrconso
  let byNorm := buildByNorm st.catalog
  let cat1 := rxn.foldl (rxnormStep byNorm) st.catalog
  let cat2 := drugbank.foldl (drugbankStep byNorm) cat1
  let cat3 := mesh.foldl (meshStep byNorm) cat2
  emitCatalog cat3

/-! ## Stage 02 — UMLS edges (src/kb/build/02_build_edges_umls.py) -/

/-- Edge row written by a per-source stage (columns h,r,t,source,score,
evidence; the score is carried as its exact value, CSV serialization
round-trips it). -/
structure Edge where
  h : String
  r : String
  t : String
  source : String
  score : DecNum
  evidence : String
deriving DecidableEq, Repr

def isDrugLike (t : String) : Bool := t = "drug" || t = "chemical"

def isDiseaseLike (t : String) : Bool := t = "disease"

/-- Embeds `map_relation` (lines 32-44). -/
def map_relation (rel rela : String) : Option String :=
  let r := pyLower (pyStrip (if rela = "" then rel else rela))
  if r ∈ ["may_treat", "treats", "treated_by", "treatment_of"] then some "TREATS"
  else if r ∈ ["causes", "induces", "adverse_effect_of"] then some "ADVERSE_EFFECT"
  else if r ∈ ["contraindicated_with_disease", "contraindicated_with"] then
    some "CONTRAINDICATED_FOR"
  else if r ∈ ["interacts_with", "ddi", "drug_interaction"] then some "INTERACTS_WITH"
  else if pyUpper (pyStrip rel) ∈ ["RO", "RQ"] then some "ASSOCIATED_WITH"
  else none

/-- Embeds `load_type_map_from_catalog` of common.py: returns
(cui_to_kgid, kgid_to_type). -/
def loadTypeMap (cat : List ConceptRec) :
    List (String × String) × List (String × String) :=
  cat.foldl (fun m c =>
    let m2 := (m.1, alistPut m.2 c.kg_id c.entity_type)
    let cui := pyUpper c.cui
    if cui ≠ "" then (alistPut m2.1 cui c.kg_id, m2.2) else m2)
    ([], [])

/-- Accumulator of the per-source edge loops: the `seen` key set and the
emitted rows. -/
structure EdgeAcc where
  seen : List (String × String × String)
  rows : List Edge
deriving Repr

/-- Membership of an (h, r, t) key in the seen set. -/
def keySeen (seen : List (String × String × String))
    (k : String × String × String) : Bool := seen.contains k

/-- One MRREL row of stage 02 `build` (lines 67-113). -/
def umlsStep (cuiToKg kgToType : List (String × String)) (acc : EdgeAcc)
    (fields : List String) : EdgeAcc :=
  if fields.length < 11 then acc
  else
    let cui1 := pyUpper (pyStrip (fields.getD 0 ""))
    let rel := pyUpper (pyStrip (fields.getD 3 ""))
    let cui2 := pyUpper (pyStrip (fields.getD 4 ""))
    let rela := pyStrip (fields.getD 7 "")
    let sab := pyStrip (fields.getD 10 "")
    match map_relation rel rela with
    | none => acc
    | some mapped =>
      match alistGet cuiToKg cui1, alistGet cuiToKg cui2 with
      | some h, some t =>
        if h = "" ∨ t = "" then acc
        else
          let ht := (alistGet kgToType h).getD "entity"
          let tt := (alistGet kgToType t).getD "entity"
          if mapped ∈ ["TREATS", "ADVERSE_EFFECT", "CONTRAINDICATED_FOR"]
              ∧ ¬(isDrugLike ht ∧ isDiseaseLike tt) then acc
          else if mapped = "INTERACTS_WITH" ∧ ¬(isDrugLike ht ∧ isDrugLike tt) then acc
          else
            let key := (h, mapped, t)
            if keySeen acc.seen key then acc
            else
              { seen := acc.seen ++ [key],
                rows := acc.rows ++
                  [⟨h, mapped, t, "UMLS", ⟨1, 0⟩,
                    sab ++ ":" ++ (if rela = "" then rel else rela)⟩] }
      | _, _ => acc

/-- Embeds `build` of stage 02: catalog plus MRREL rows to the edge
rows of kg_edges.umls.csv. -/
def edgesUmls (cat : List ConceptRec) (mrrel : List (List String)) : List Edge :=
  let maps := loadTypeMap cat
  (mrrel.foldl (umlsStep maps.1 maps.2) ⟨[], []⟩).rows

/-! ## Stage 03 — SIDER edges (src/kb/build/03_build_edges_sider.py) -/

/-- Surface indexes of stages 03/04 (lines 44-53 of 03, 44-53 of 04):
normalized synonym surface to kg_id set, one index for entity types
drug/chemical and one for disease. -/
def buildSurfaceIdx (cat : List ConceptRec) :
    List (String × List String) × List (String × List String) :=
  cat.foldl (fun m c =>
    c.synonyms.foldl (fun m2 s =>
      let n := normalize_surface s
      if c.entity_type = "drug" ∨ c.entity_type = "chemical" then
        (multiAdd m2.1 n c.kg_id, m2.2)
      else if c.entity_type = "disease" then (m2.1, multiAdd m2.2 n c.kg_id)
      else m2) m)
    ([], [])

/-- STITCH-id to drug-name map from drug_names.tsv (lines 55-61). -/
def buildStitchMap (rows : List (List String)) : List (String × String) :=
  rows.foldl (fun m fields =>
    if fields.length < 2 then m
    else alistPut m (pyStrip (fields.getD 0 "")) (pyStrip (fields.getD 1 "")))
    []

/-- One meddra_all_se.tsv row of stage 03 `build` (lines 73-105). -/
def siderStep (drugIdx diseaseIdx : List (String × List String))
    (stitchMap : List (String × String)) (acc : EdgeAcc)
    (fields : List String) : EdgeAcc :=
  if fields.length < 6 then acc
  else
    let stitch := if pyStrip (fields.getD 0 "") ≠ "" then pyStrip (fields.getD 0 "")
      else pyStrip (fields.getD 1 "")
    let effect := pyStrip (fields.getLast?.getD "")
    let drugName := (alistGet stitchMap stitch).getD ""
    if drugName = "" ∨ effect = "" then acc
    else
      let dHits := (alistGet drugIdx (normalize_surface drugName)).getD []
      let eHits := (alistGet diseaseIdx (normalize_surface effect)).getD []
      if dHits = [] then acc
      else if eHits = [] then acc
      else
        (sortStr dHits).foldl (fun a d =>
          (sortStr eHits).foldl (fun a2 e =>
            let key := (d, "ADVERSE_EFFECT", e)
            if keySeen a2.seen key then a2
            else
              { seen := a2.seen ++ [key],
                rows := a2.rows ++
                  [⟨d, "ADVERSE_EFFECT", e, "SIDER", ⟨9, 1⟩,
                    drugName ++ " -> " ++ effect⟩] }) a) acc

/-- Embeds `build` of stage 03: catalog, drug_names.tsv rows and
meddra_all_se.tsv rows to the edge rows of kg_edges.sider.csv. -/
def edgesSider (cat : List ConceptRec) (drugNames meddra : List (List String)) :
    List Edge :=
  let idx := buildSurfaceIdx cat
  let stitchMap := buildStitchMap drugNames
  (meddra.foldl (siderStep idx.1 idx.2 stitchMap) ⟨[], []⟩).rows

/-! ## Stage 04 — CTD edges (src/kb/build/04_build_edges_ctd.py) -/

/-- Python `inf_score.replace(".", "", 1)`: drop the first dot. -/
def dropFirstDot : List Char → List Char
  | [] => []
  | c :: cs => if c = '.' then cs else c :: dropFirstDot cs

/-- Python `s.isdigit()` on the ASCII fragment: nonempty and all
characters decimal digits. -/
def pyIsDigitStr (l : List Char) : Bool := !l.isEmpty && l.all isDigitChar

/-- CTD score rule (line 94): the parsed inference score when
`inf_score.replace(".", "", 1).isdigit()`, else the default 0.75. -/
def ctdScore (s : String) : DecNum :=
  if pyIsDigitStr (dropFirstDot s.data) then (parseFloat s).getD ⟨75, 2⟩
  else ⟨75, 2⟩

/-- One CTD_chemicals_diseases row of stage 04 `build` (lines 66-110). -/
def ctdStep (chemIdx diseaseIdx : List (String × List String)) (acc : EdgeAcc)
    (row : List String) : EdgeAcc :=
  if row.isEmpty then acc
  else if startsWithChars ['#'] (row.getD 0 "").data then acc
  else if row.length < 6 then acc
  else if row.getD 0 "" = "ChemicalName" then acc
  else
    let chemicalName := pyStrip (row.getD 0 "")
    let diseaseName := pyStrip (row.getD 3 "")
    let directEvidence := pyLower (pyStrip (row.getD 4 ""))
    let infScore := if 7 < row.length then pyStrip (row.getD 7 "") else ""
    let chemHits := (alistGet chemIdx (normalize_surface chemicalName)).getD []
    let disHits := (alistGet diseaseIdx (normalize_surface diseaseName)).getD []
    if chemHits = [] then acc
    else if disHits = [] then acc
    else
      let rel := if containsSub directEvidence "therapeutic" then "TREATS"
        else "ASSOCIATED_WITH"
      let score := ctdScore infScore
      (sortStr chemHits).foldl (fun a h =>
        (sortStr disHits).foldl (fun a2 t =>
          let key := (h, rel, t)
          if keySeen a2.seen key then a2
          else
            { seen := a2.seen ++ [key],
              rows := a2.rows ++
                [⟨h, rel, t, "CTD", score,
                  chemicalName ++ " -> " ++ diseaseName ++ " (" ++ directEvidence ++ ")"⟩] }) a)
        acc

/-- Embeds `build` of stage 04: catalog and CTD csv rows to the edge
rows of kg_edges.ctd.csv. -/
def edgesCtd (cat : List ConceptRec) (ctd : List (List String)) : List Edge :=
  let idx := buildSurfaceIdx cat
  (ctd.foldl (ctdStep idx.1 idx.2) ⟨[], []⟩).rows

/-! ## Stage 05 — edge merger (src/kb/build/05_merge_edges.py) -/

/-- Raw CSV row of a per-source edge file as `_read_edges` receives it
(column aliasing h/head etc. is modelled away by the field names). -/
structure CsvRow where
  h : String
  r : String
  t : String
  source : String
  scoreRaw : String
  evidence : String
deriving DecidableEq, Repr

/-- Parsed row yielded by `_read_edges` (lines 13-36): fields stripped,
rows with an empty h/r/t skipped, score parsed with fallback 1.0. -/
structure PRow where
  h : String
  r : String
  t : String
  src : String
  score : DecNum
  ev : String
deriving DecidableEq, Repr

/-- Embeds `_read_edges`. -/
def readEdges (rows : List CsvRow) : List PRow :=
  rows.filterMap (fun row =>
    let h := pyStrip row.h
    let rel := pyStrip row.r
    let t := pyStrip row.t
    if h = "" ∨ rel = "" ∨ t = "" then none
    else
      some ⟨h, rel, t, pyStrip row.source,
        (parseFloat (pyStrip row.scoreRaw)).getD decOne, pyStrip row.evidence⟩)

/-- Stage 05 reading of a file written by stage 02/03/04: the CSV
round-trip is the identity on the field values, so the parsed rows are
the stage's edge records after `_read_edges`'s stripping and
empty-field filter, with the score value carried through. -/
def readStageEdges (es : List Edge) : List PRow :=
  es.filterMap (fun e =>
    let h := pyStrip e.h
    let rel := pyStrip e.r
    let t := pyStrip e.t
    if h = "" ∨ rel = "" ∨ t = "" then none
    else some ⟨h, rel, t, pyStrip e.source, e.score, pyStrip e.evidence⟩)

/-- Accumulated merge entry for one (h, r, t) key (lines 56-69). -/
structure MAcc where
  h : String
  r : String
  t : String
  source : List String
  score : DecNum
  evidence : List String
deriving DecidableEq, Repr

def EKey : Type := String × String × String

def prowKey (p : PRow) : String × String × String := (p.h, p.r, p.t)

def mergedGet (m : List ((String × String × String) × MAcc))
    (k : String × String × String) : Option MAcc :=
  match m.find? (fun p => p.1 = k) with
  | some p => some p.2
  | none => none

def mergedPut :
    List ((String × String × String) × MAcc) → (String × String × String) → MAcc →
      List ((String × String × String) × MAcc)
  | [], k, v => [(k, v)]
  | p :: ps, k, v => if p.1 = k then (k, v) :: ps else p :: mergedPut ps k v

/-- One parsed row of the merge loop (lines 53-69).  On first sight the
source/evidence sets start from the value when it is nonempty; on a
duplicate key the value is added unconditionally and the score is
replaced when strictly greater. -/
def mergeStep (m : List ((String × String × String) × MAcc)) (row : PRow) :
    List ((String × String × String) × MAcc) :=
  let key := (row.h, row.r, row.t)
  match mergedGet m key with
  | none =>
    m ++ [(key, ⟨row.h, row.r, row.t,
      (if row.src = "" then [] else [row.src]), row.score,
      (if row.ev = "" then [] else [row.ev])⟩)]
  | some acc =>
    mergedPut m key
      { acc with
        source := addSet acc.source row.src,
        evidence := addSet acc.evidence row.ev,
        score := if acc.score.ltb row.score then row.score else acc.score }

def mergeParsed (rows : List PRow) : List ((String × String × String) × MAcc) :=
  rows.foldl mergeStep []

/-- Strict lexicographic order on (h, r, t) keys — Python tuple
comparison used by `sorted(merged)`. -/
def keyLt (a b : String × String × String) : Bool :=
  strLt a.1 b.1 || (a.1 = b.1 &&
    (strLt a.2.1 b.2.1 || (a.2.1 = b.2.1 && strLt a.2.2 b.2.2)))

/-- Output row of kg_edges.merged.csv. -/
structure MergedRow where
  head : String
  relation : String
  tail : String
  source : String
  score : String
  evidence : String
deriving DecidableEq, Repr

def mergedRowKey (m : MergedRow) : String × String × String :=
  (m.head, m.relation, m.tail)

/-- Output pass of stage 05 (lines 71-109): keys sorted, source and
evidence sets filtered of empties, sorted and pipe-joined, score
formatted with 4 decimal places. -/
def emitMerged (m : List ((String × String × String) × MAcc)) : List MergedRow :=
  (sortOrd (fun a b => keyLt a.1 b.1) m).map (fun p =>
    ⟨p.2.h, p.2.r, p.2.t,
      pipeJoin (sortStr (p.2.source.filter (fun x => x ≠ ""))),
      format4 p.2.score,
      pipeJoin (sortStr (p.2.evidence.filter (fun x => x ≠ "")))⟩)

/-- Embeds `build` of stage 05 on the raw rows of the three per-source
files (concatenated in the read order umls, sider, ctd). -/
def mergeEdges (rows : List CsvRow) : List MergedRow :=
  emitMerged (mergeParsed (readEdges rows))

/-- Stage 05 applied to in-model per-source stage outputs. -/
def mergeStageEdges (es : List Edge) : List MergedRow :=
  emitMerged (mergeParsed (readStageEdges es))

/-! ## Stage 06 — dict and overlay (src/kb/build/06_build_umls_dict_and_overlay.py) -/

/-- Per-concept data collected from the catalog file (lines 23-46):
kg_to_cui, kg_to_catalog_syns (stripped nonempty synonyms as a set) and
kg_to_canonical (stripped), for rows with a nonempty cui. -/
def stage06Maps (cat : List ConceptRec) :
    List (String × String) × List (String × List String) × List (String × String) :=
  cat.foldl (fun m row =>
    let cui := pyUpper (pyStrip row.cui)
    if cui = "" then m
    else
      let syns := listToSet ((row.synonyms.map pyStrip).filter (fun s => s ≠ ""))
      (alistPut m.1 row.kg_id cui,
       alistPut m.2.1 row.kg_id syns,
       alistPut m.2.2 row.kg_id (pyStrip row.canonical_name)))
    ([], [], [])

/-- Python `{cui: kg for kg, cui in kg_to_cui.items()}` (line 48). -/
def invertKgToCui (kgToCui : List (String × String)) : List (String × String) :=
  kgToCui.foldl (fun a p => alistPut a p.2 p.1) []

/-- MRCONSO pass of stage 06 (lines 51-66): add each English surface of
a catalog CUI to that concept's base set. -/
def stage06MrconsoStep (cuiToKg : List (String × String))
    (baseSets : List (String × List String)) (fields : List String) :
    List (String × List String) :=
  if fields.length < 15 then baseSets
  else
    let cui := pyUpper (pyStrip (fields.getD 0 ""))
    let lat := pyUpper (pyStrip (fields.getD 1 ""))
    let text := pyStrip (fields.getD 14 "")
    if cui = "" ∨ text = "" ∨ lat ≠ "ENG" then baseSets
    else
      match alistGet cuiToKg cui with
      | none => baseSets
      | some kgId => multiAdd baseSets kgId text

/-- Case-insensitive sort key `str.casefold` (ASCII fragment: lower). -/
def cfLt (a b : String) : Bool := strLt (pyLower a) (pyLower b)

def sortCF (l : List String) : List String := sortOrd cfLt l

/-- Final per-key emission of stage 06 (lines 77-86): append the sorted
base set under the key when it is nonempty, and the sorted set of
catalog synonyms outside the base under the key when that is
nonempty. -/
def stage06OutStep (baseSets kgToSyns : List (String × List String))
    (out : List (String × List String) × List (String × List String))
    (kgId : String) :
    List (String × List String) × List (String × List String) :=
  let baseSorted := sortCF ((alistGet baseSets kgId).getD [])
  let out1 := if baseSorted ≠ [] then (out.1 ++ [(kgId, baseSorted)], out.2) else out
  let catalogSyns := (alistGet kgToSyns kgId).getD []
  let extra := sortCF (catalogSyns.filter (fun s => s ∉ baseSorted))
  if extra ≠ [] then (out1.1, out1.2 ++ [(kgId, extra)]) else out1

/-- Base-set accumulation of stage 06 (lines 48-70): start every
catalog kg_id with an empty set, add the English MRCONSO surfaces of
its CUI, then add the (nonempty) canonical names. -/
def stage06BaseSets (cat : List ConceptRec) (mrconso : List (List String)) :
    List (String × List String) :=
  let maps := stage06Maps cat
  let cuiToKg := invertKgToCui maps.1
  let baseSets0 : List (String × List String) := maps.1.map (fun p => (p.1, []))
  let baseSets1 := mrconso.foldl (stage06MrconsoStep cuiToKg) baseSets0
  maps.2.2.foldl (fun bs p => if p.2 ≠ "" then multiAdd bs p.1 p.2 else bs) baseSets1

/-- Embeds `build` of stage 06: catalog records and MRCONSO rows to
(base dict, overlay dict), both keyed by kg_id in sorted key order
(lines 13-92). -/
def stage06 (cat : List ConceptRec) (mrconso : List (List String)) :
    List (String × List String) × List (String × List String) :=
  (sortStr ((stage06BaseSets cat mrconso).map (fun p => p.1))).foldl
    (stage06OutStep (stage06BaseSets cat mrconso) (stage06Maps cat).2.1) ([], [])

/-! ## Claim C2 — the boundary scenario of two MRCONSO rows -/

def c2MrstyRows : List (List String) := [["C0000001", "T109", "x", "y"]]

def c2Row1 : List String :=
  ["C0000001", "ENG", "", "", "", "", "N", "", "", "", "", "", "", "", "Aspirin"]

def c2Row2 : List String :=
  ["C0000001", "ENG", "", "", "", "", "Y", "", "", "", "", "", "", "",
    "Acetylsalicylic Acid"]

/-- Stage 01 run on the C2 scenario: MRSTY gives C0000001 the TUI set
{T109}; MRCONSO has the non-preferred row "Aspirin" then the preferred
row "Acetylsalicylic Acid"; no enrichment inputs. -/
def c2Catalog : List ConceptRec := buildCatalog c2MrstyRows [c2Row1, c2Row2] [] [] []

/-- C2 counterexample: on the claimed scenario the catalog holds exactly
one concept, but its kg_id is "drug_aspirin" — the id is minted from the
FIRST English surface seen ("Aspirin"), not from the later preferred
canonical name — so no concept has the claimed kg_id
"drug_acetylsalicylic_acid". -/
theorem c2_kg_id_refuted :
    c2Catalog = [⟨"drug_aspirin", "C0000001", "drug", "Acetylsalicylic Acid",
      ["Acetylsalicylic Acid", "Aspirin"], ["UMLS"]⟩]
    ∧ "drug_acetylsalicylic_acid" ∉ c2Catalog.map (fun c => c.kg_id) := by
  constructor
  · rfl
  · decide

/-- C2 amended: the scenario yields a single catalog concept with
kg_id = "drug_aspirin" (slug of the first English surface), canonical
name "Acetylsalicylic Acid" (the later preferred row) and synonyms
containing both "Aspirin" and "Acetylsalicylic Acid". -/
theorem c2_scenario_catalog :
    c2Catalog = [⟨"drug_aspirin", "C0000001", "drug", "Acetylsalicylic Acid",
      ["Acetylsalicylic Acid", "Aspirin"], ["UMLS"]⟩] := rfl

/-! ## Claim C7 — the CTD Warfarin/Hemorrhage scenario -/

def c7Catalog : List ConceptRec :=
  [⟨"drug_warfarin", "C1", "drug", "Warfarin", ["Warfarin"], ["UMLS"]⟩,
   ⟨"disease_hemorrhage", "C2", "disease", "Hemorrhage", ["Hemorrhage"], ["UMLS"]⟩]

def c7Row1 : List String :=
  ["Warfarin", "", "", "Hemorrhage", "marker/mechanism", "", "", "0.42"]

def c7Row2 : List String :=
  ["Warfarin", "", "", "Hemorrhage", "therapeutic", "", ""]

def c7Edges : List Edge := edgesCtd c7Catalog [c7Row1, c7Row2]

def c7Merged : List MergedRow := mergeStageEdges c7Edges

/-- C7 counterexample: the second CTD row's direct evidence contains
"therapeutic", so stage 04 maps it to TREATS, a different relation —
hence a different (head, relation, tail) key — than the first row's
ASSOCIATED_WITH; stage 05 therefore keeps TWO merged rows instead of
the claimed single merged row. -/
theorem c7_no_single_merged_row :
    c7Edges =
      [⟨"drug_warfarin", "ASSOCIATED_WITH", "disease_hemorrhage", "CTD", ⟨42, 2⟩,
        "Warfarin -> Hemorrhage (marker/mechanism)"⟩,
       ⟨"drug_warfarin", "TREATS", "disease_hemorrhage", "CTD", ⟨75, 2⟩,
        "Warfarin -> Hemorrhage (therapeutic)"⟩]
    ∧ c7Merged.length = 2 := by
  constructor
  · rfl
  · rfl

/-- C7 amended: the marker/mechanism row emits ASSOCIATED_WITH with
score 0.42; the therapeutic row emits TREATS with the default score
0.75 (it lacks an inference score); having different relations the two
edges do NOT merge, and the merged file carries both rows, each with
source CTD and its own evidence string. -/
theorem c7_scenario_merged :
    c7Merged =
      [⟨"drug_warfarin", "ASSOCIATED_WITH", "disease_hemorrhage", "CTD", "0.4200",
        "Warfarin -> Hemorrhage (marker/mechanism)"⟩,
       ⟨"drug_warfarin", "TREATS", "disease_hemorrhage", "CTD", "0.7500",
        "Warfarin -> Hemorrhage (therapeutic)"⟩] := rfl

/-! ## Helper lemmas on stripping -/

theorem length_dropWhile_le {α : Type} (p : α → Bool) (l : List α) :
    (l.dropWhile p).length ≤ l.length := by
  induction l with
  | nil => simp [List.dropWhile]
  | cons c t ih =>
    simp only [List.dropWhile]
    cases p c with
    | true => exact Nat.le_succ_of_le ih
    | false => simp

theorem dropWhile_idem {α : Type} (p : α → Bool) (l : List α) :
    List.dropWhile p (List.dropWhile p l) = List.dropWhile p l := by
  induction l with
  | nil => rfl
  | cons c t ih =>
    simp only [List.dropWhile]
    cases hc : p c with
    | true => simpa [hc] using ih
    | false => simp [List.dropWhile, hc]

theorem dropWhile_exists_append {α : Type} (p : α → Bool) (l : List α) :
    ∃ t, l = t ++ List.dropWhile p l := by
  induction l with
  | nil => exact ⟨[], rfl⟩
  | cons c t ih =>
    simp only [List.dropWhile]
    cases hc : p c with
    | true =>
      rcases ih with ⟨u, hu⟩
      exact ⟨c :: u, by simpa using hu⟩
    | false => exact ⟨[], rfl⟩

theorem noLead_head {α : Type} {p : α → Bool} {c : α} {t : List α}
    (h : List.dropWhile p (c :: t) = c :: t) : p c = false := by
  cases hc : p c with
  | false => rfl
  | true =>
    rw [List.dropWhile_cons_of_pos hc] at h
    have := length_dropWhile_le p t
    rw [h] at this
    simp only [List.length_cons] at this
    omega

theorem noLead_of_prefix {α : Type} {p : α → Bool} {l pre rest : List α}
    (hl : List.dropWhile p l = l) (happ : l = pre ++ rest) :
    List.dropWhile p pre = pre := by
  cases pre with
  | nil => rfl
  | cons c m =>
    have hc : p c = false := by
      rw [happ] at hl
      exact noLead_head (by
        have : List.dropWhile p (c :: (m ++ rest)) = c :: (m ++ rest) := hl
        exact this)
    rw [List.dropWhile_cons_of_neg (by simp [hc])]

theorem stripChars_noLead (l : List Char) :
    List.dropWhile pyIsSpace (stripChars l) = stripChars l := by
  unfold stripChars
  rcases dropWhile_exists_append pyIsSpace (l.dropWhile pyIsSpace).reverse with ⟨t, ht⟩
  have hl : List.dropWhile pyIsSpace (l.dropWhile pyIsSpace) = l.dropWhile pyIsSpace :=
    dropWhile_idem pyIsSpace l
  have happ : l.dropWhile pyIsSpace =
      ((l.dropWhile pyIsSpace).reverse.dropWhile pyIsSpace).reverse ++ t.reverse := by
    have := congrArg List.reverse ht
    simpa using this
  exact noLead_of_prefix hl happ

theorem stripChars_idem (l : List Char) : stripChars (stripChars l) = stripChars l := by
  have h1 : List.dropWhile pyIsSpace (stripChars l) = stripChars l := stripChars_noLead l
  have h2 : List.dropWhile pyIsSpace (stripChars l).reverse = (stripChars l).reverse := by
    unfold stripChars
    simp only [List.reverse_reverse]
    exact dropWhile_idem pyIsSpace _
  unfold stripChars
  rw [show stripChars l = ((l.dropWhile pyIsSpace).reverse.dropWhile pyIsSpace).reverse
      from rfl] at h1 h2
  rw [h1, h2, List.reverse_reverse]

theorem pyStrip_idem (s : String) : pyStrip (pyStrip s) = pyStrip s := by
  unfold pyStrip
  exact congrArg String.mk (stripChars_idem s.data)

theorem normalize_pyStrip (s : String) :
    normalize_surface (pyStrip s) = normalize_surface s := by
  unfold normalize_surface
  rw [pyStrip_idem]

theorem foldl_id {α β : Type} {f : α → β → α} (h : ∀ a b, f a b = a) :
    ∀ (l : List β) (a : α), l.foldl f a = a
  | [], _ => rfl
  | x :: xs, a => by rw [List.foldl_cons, h a x]; exact foldl_id h xs a

/-! ## Claim C1 — single-target synonym enrichment -/

/-- C1 amended (one theorem, three conjuncts): for an external name
processed by the enricher through a source's per-name step
(`enrichName`, the shared body of the RxNorm / DrugBank / MeSH loops):
if the normalized surface has exactly one hit k, the concept of k has
the source's entity type, and the STRIPPED name has at least 2
characters, then the stripped (otherwise un-normalized) name is added to
k's synonyms and the source tag to k's sources; if the surface has no
hit set, or its hit set has size ≠ 1, the catalog is unchanged. -/
theorem c1_enrichment_single_target
    (cat : List ConceptRec) (byNorm : List (String × List String))
    (name src ty : String) :
    (∀ k c, alistGet byNorm (normalize_surface name) = some [k] →
        getConcept cat k = some c → c.entity_type = ty →
        2 ≤ (pyStrip name).data.length →
        enrichName byNorm ty src cat name =
          updateConcept cat k (fun con =>
            { con with synonyms := addSet con.synonyms (pyStrip name),
                       sources := addSet con.sources src }))
    ∧ (alistGet byNorm (normalize_surface name) = none →
        enrichName byNorm ty src cat name = cat)
    ∧ (∀ hits, alistGet byNorm (normalize_surface name) = some hits →
        hits.length ≠ 1 → enrichName byNorm ty src cat name = cat) := by
  refine ⟨?_, ?_, ?_⟩
  · intro k c hhit hc hty hlen
    unfold enrichName
    rw [hhit]
    simp only [Option.getD_some, List.foldl_cons, List.foldl_nil, hc]
    rw [if_pos hty]
    simp only [addSynonym]
    rw [if_neg (by omega)]
    simp only [normalize_pyStrip, hhit]
    simp
  · intro hhit
    unfold enrichName
    rw [hhit]
    rfl
  · intro hits hhit hlen
    unfold enrichName
    rw [hhit]
    simp only [Option.getD_some]
    refine foldl_id ?_ hits cat
    intro acc x
    cases hg : getConcept acc x with
    | none => simp [hg]
    | some con =>
      simp only [hg]
      by_cases h2 : con.entity_type = ty
      · rw [if_pos h2]
        simp only [addSynonym]
        by_cases h3 : (pyStrip name).data.length < 2
        · rw [if_pos h3]
        · rw [if_neg h3]
          simp only [normalize_pyStrip, hhit]
          simp [hlen]
      · rw [if_neg h2]

def c1CatOne : List ConceptRec :=
  [⟨"drug_c", "C1", "drug", "C", ["C"], ["UMLS"]⟩]

def c1ByNormOne : List (String × List String) := buildByNorm c1CatOne

def c1CatTwo : List ConceptRec :=
  [⟨"drug_ab", "C2", "drug", "Ab", ["Ab"], ["UMLS"]⟩]

def c1ByNormTwo : List (String × List String) := buildByNorm c1CatTwo

/-- C1 counterexample.  Two DrugBank names whose normalized surface has
exactly one hit of entity type drug, yet the claim's conclusion fails:
(i) the one-character name "c" is rejected by the `len(s) < 2` guard of
`_add_synonym`, so neither the name nor the DrugBank tag is recorded;
(ii) for the padded name " Ab" the enricher stores the STRIPPED string
"Ab", so the original un-normalized " Ab" is not in the synonyms even
though the name was accepted (the DrugBank tag was added). -/
theorem c1_unstripped_and_short_names_refuted :
    (alistGet c1ByNormOne (normalize_surface "c") = some ["drug_c"]
      ∧ drugbankStep c1ByNormOne c1CatOne ["c"] = c1CatOne
      ∧ "c" ∉ (drugbankStep c1ByNormOne c1CatOne ["c"]).flatMap (fun c => c.synonyms)
      ∧ "DrugBank" ∉ (drugbankStep c1ByNormOne c1CatOne ["c"]).flatMap (fun c => c.sources))
    ∧ (alistGet c1ByNormTwo (normalize_surface " Ab") = some ["drug_ab"]
      ∧ drugbankStep c1ByNormTwo c1CatTwo [" Ab"] =
          [⟨"drug_ab", "C2", "drug", "Ab", ["Ab"], ["UMLS", "DrugBank"]⟩]
      ∧ " Ab" ∉ (drugbankStep c1ByNormTwo c1CatTwo [" Ab"]).flatMap (fun c => c.synonyms)) := by
  refine ⟨⟨rfl, rfl, ?_, ?_⟩, rfl, rfl, ?_⟩ <;> decide

/-- C1 witness: the amended theorem applied to a concrete one-concept
catalog, the RxNorm-style name "FOO" (unique hit "drug_foo", type drug,
length ≥ 2): the stripped name and the source tag are recorded. -/
theorem c1_enrichment_single_target_witness :
    enrichName (buildByNorm [⟨"drug_foo", "C9", "drug", "Foo", ["Foo"], ["UMLS"]⟩])
        "drug" "RxNorm" [⟨"drug_foo", "C9", "drug", "Foo", ["Foo"], ["UMLS"]⟩] "FOO" =
      updateConcept [⟨"drug_foo", "C9", "drug", "Foo", ["Foo"], ["UMLS"]⟩] "drug_foo"
        (fun con =>
          { con with synonyms := addSet con.synonyms (pyStrip "FOO"),
                     sources := addSet con.sources "RxNorm" }) :=
  (c1_enrichment_single_target
      [⟨"drug_foo", "C9", "drug", "Foo", ["Foo"], ["UMLS"]⟩]
      (buildByNorm [⟨"drug_foo", "C9", "drug", "Foo", ["Foo"], ["UMLS"]⟩])
      "FOO" "RxNorm" "drug").1
    "drug_foo" ⟨"drug_foo", "C9", "drug", "Foo", ["Foo"], ["UMLS"]⟩
    (by decide) (by decide) rfl (by decide)

/-! ## Claim C10 — unparseable merge scores default to 1.0 -/

theorem pipeJoin_sortStr_single (s : String) :
    pipeJoin (sortStr ((if s = "" then [] else [s]).filter (fun x => x ≠ ""))) = s := by
  by_cases hs : s = ""
  · simp [hs, sortStr, sortOrd, pipeJoin]
  · simp only [if_neg hs]
    rw [List.filter_cons_of_pos (by simpa using hs)]
    simp [sortStr, sortOrd, insertOrd, pipeJoin]

/-- C10: a per-source row whose stripped score field does not parse as a
float is kept by `_read_edges` with score 1.0 (not dropped, not 0.75),
and the merged output row for it carries the 4-decimal formatting of
that 1.0. -/
theorem c10_unparseable_score_is_one
    (row : CsvRow) (rest : List CsvRow)
    (hh : pyStrip row.h ≠ "") (hr : pyStrip row.r ≠ "") (ht : pyStrip row.t ≠ "")
    (hs : parseFloat (pyStrip row.scoreRaw) = none) :
    readEdges (row :: rest) =
      ⟨pyStrip row.h, pyStrip row.r, pyStrip row.t, pyStrip row.source, decOne,
        pyStrip row.evidence⟩ :: readEdges rest
    ∧ mergeEdges [row] =
        [⟨pyStrip row.h, pyStrip row.r, pyStrip row.t, pyStrip row.source,
          "1.0000", pyStrip row.evidence⟩] := by
  have hread : ∀ rs, readEdges (row :: rs) =
      ⟨pyStrip row.h, pyStrip row.r, pyStrip row.t, pyStrip row.source, decOne,
        pyStrip row.evidence⟩ :: readEdges rs := by
    intro rs
    simp only [readEdges, List.filterMap_cons]
    rw [if_neg (by simp [hh, hr, ht])]
    rw [hs]
    rfl
  refine ⟨hread rest, ?_⟩
  unfold mergeEdges
  rw [hread []]
  show emitMerged (mergeParsed [_]) = _
  simp only [mergeParsed, List.foldl_cons, List.foldl_nil, mergeStep, mergedGet,
    List.find?_nil, List.nil_append]
  simp only [emitMerged, sortOrd, insertOrd, List.map_cons, List.map_nil]
  rw [pipeJoin_sortStr_single, pipeJoin_sortStr_single]
  rfl

def c10Row : CsvRow := ⟨"a", "R", "b", "UMLS", "abc", "e"⟩

/-- C10 witness: the theorem at a concrete row with score field "abc". -/
theorem c10_unparseable_score_is_one_witness :
    readEdges [c10Row] =
      [⟨pyStrip c10Row.h, pyStrip c10Row.r, pyStrip c10Row.t, pyStrip c10Row.source,
        decOne, pyStrip c10Row.evidence⟩]
    ∧ mergeEdges [c10Row] =
        [⟨pyStrip c10Row.h, pyStrip c10Row.r, pyStrip c10Row.t, pyStrip c10Row.source,
          "1.0000", pyStrip c10Row.evidence⟩] :=
  c10_unparseable_score_is_one c10Row [] (by decide) (by decide) (by decide) (by decide)

/-! ## Claim C9 — kg_id collision between two CUIs -/

/-- MRCONSO English row with the given CUI, ISPREF flag and surface
(15 fields; the unused fields are empty). -/
def mkConsoRow (cui pref text : String) : List String :=
  [cui, "ENG", "", "", "", "", pref, "", "", "", "", "", "", "", text]

theorem mrconsoStep_clean (tuis : List (String × List String)) (st : CatState)
    (cui pref text : String)
    (hcui : pyUpper (pyStrip cui) = cui) (hcn : cui ≠ "")
    (htext : pyStrip text = text) (htn : text ≠ "") :
    mrconsoStep tuis st (mkConsoRow cui pref text) =
      (let etype := infer_entity_type ((alistGet tuis cui).getD [])
       if etype = "entity" then st
       else if cui ∈ st.cuiSeen then
         match alistGet st.cuiToKg cui with
         | none => st
         | some kgId =>
           { st with catalog := updateConcept st.catalog kgId (fun c =>
               { c with
                 canonical_name := if pyUpper (pyStrip pref) = "Y" then text
                   else c.canonical_name,
                 synonyms := addSet c.synonyms text }) }
       else
         let kgId := kg_id_for cui text etype
         { catalog := putConcept st.catalog ⟨kgId, cui, etype, text, [text], ["UMLS"]⟩,
           cuiToKg := alistPut st.cuiToKg cui kgId,
           cuiSeen := st.cuiSeen ++ [cui] }) := by
  have hlen : ((mkConsoRow cui pref text).length < 15) = False := by
    simp [mkConsoRow]
  have g0 : (mkConsoRow cui pref text).getD 0 "" = cui := rfl
  have g1 : (mkConsoRow cui pref text).getD 1 "" = "ENG" := rfl
  have g6 : (mkConsoRow cui pref text).getD 6 "" = pref := rfl
  have g14 : (mkConsoRow cui pref text).getD 14 "" = text := rfl
  have hENG : pyUpper (pyStrip "ENG") = "ENG" := rfl
  simp only [mrconsoStep, hlen, if_false, g0, g1, g6, g14, hcui, htext, hENG,
    hcn, htn, or_self, if_false, ne_eq, not_true_eq_false]

/-- C9: when two distinct CUIs, both with an entity type other than the
dropped "entity" fallback (that is, in {drug, disease, chemical, gene}),
mint the same kg_id, the later CUI's fresh record silently replaces the
earlier CUI's record under that kg_id; the catalog holds a single
record whose cui is the LATER CUI, and a subsequent row of the EARLIER
CUI routed through cui_to_kg mutates that record: its preferred surface
overwrites canonical_name and is added to the synonyms; the emitted
catalog has no record with the earlier CUI. -/
theorem c9_collision_replaces_record
    (tuis : List (String × List String)) (cui1 cui2 s1 s2 s3 : String)
    (hc1 : pyUpper (pyStrip cui1) = cui1) (hc1n : cui1 ≠ "")
    (hc2 : pyUpper (pyStrip cui2) = cui2) (hc2n : cui2 ≠ "")
    (hne : cui1 ≠ cui2)
    (hs1 : pyStrip s1 = s1) (hs1n : s1 ≠ "")
    (hs2 : pyStrip s2 = s2) (hs2n : s2 ≠ "")
    (hs3 : pyStrip s3 = s3) (hs3n : s3 ≠ "")
    (ht1 : infer_entity_type ((alistGet tuis cui1).getD []) ≠ "entity")
    (ht2 : infer_entity_type ((alistGet tuis cui2).getD []) ≠ "entity")
    (hcol : kg_id_for cui2 s2 (infer_entity_type ((alistGet tuis cui2).getD [])) =
        kg_id_for cui1 s1 (infer_entity_type ((alistGet tuis cui1).getD []))) :
    (catalogAfterMrconso tuis
        [mkConsoRow cui1 "N" s1, mkConsoRow cui2 "N" s2,
          mkConsoRow cui1 "Y" s3]).catalog =
      [⟨kg_id_for cui1 s1 (infer_entity_type ((alistGet tuis cui1).getD [])),
        cui2, infer_entity_type ((alistGet tuis cui2).getD []),
        s3, addSet [s2] s3, ["UMLS"]⟩]
    ∧ cui1 ∉ (emitCatalog (catalogAfterMrconso tuis
        [mkConsoRow cui1 "N" s1, mkConsoRow cui2 "N" s2,
          mkConsoRow cui1 "Y" s3]).catalog).map (fun c => c.cui) := by
  have hN : (pyUpper (pyStrip "N") = "Y") = False := by decide
  have hY : (pyUpper (pyStrip "Y") = "Y") = True := by decide
  set t1 := infer_entity_type ((alistGet tuis cui1).getD []) with ht1def
  set t2 := infer_entity_type ((alistGet tuis cui2).getD []) with ht2def
  set k1 := kg_id_for cui1 s1 t1 with hk1def
  have hstep1 : catalogAfterMrconso tuis [mkConsoRow cui1 "N" s1] =
      ⟨[⟨k1, cui1, t1, s1, [s1], ["UMLS"]⟩], [(cui1, k1)], [cui1]⟩ := by
    show mrconsoStep tuis ⟨[], [], []⟩ (mkConsoRow cui1 "N" s1) = _
    rw [mrconsoStep_clean tuis _ cui1 "N" s1 hc1 hc1n hs1 hs1n]
    simp only [← ht1def, if_neg ht1, List.not_mem_nil, if_false]
    rfl
  have hcat3 : (catalogAfterMrconso tuis
      [mkConsoRow cui1 "N" s1, mkConsoRow cui2 "N" s2, mkConsoRow cui1 "Y" s3]).catalog =
      [⟨k1, cui2, t2, s3, addSet [s2] s3, ["UMLS"]⟩] := by
    have h2 : catalogAfterMrconso tuis
        [mkConsoRow cui1 "N" s1, mkConsoRow cui2 "N" s2] =
        ⟨[⟨k1, cui2, t2, s2, [s2], ["UMLS"]⟩], [(cui1, k1), (cui2, k1)],
          [cui1, cui2]⟩ := by
      show mrconsoStep tuis (catalogAfterMrconso tuis [mkConsoRow cui1 "N" s1])
          (mkConsoRow cui2 "N" s2) = _
      rw [hstep1, mrconsoStep_clean tuis _ cui2 "N" s2 hc2 hc2n hs2 hs2n]
      simp only [← ht2def, if_neg ht2]
      rw [if_neg (by simp [List.mem_singleton]; exact (Ne.symm hne))]
      rw [show kg_id_for cui2 s2 t2 = k1 from hcol]
      have hput : putConcept [⟨k1, cui1, t1, s1, [s1], ["UMLS"]⟩]
          ⟨k1, cui2, t2, s2, [s2], ["UMLS"]⟩ =
          [⟨k1, cui2, t2, s2, [s2], ["UMLS"]⟩] := by
        simp [putConcept, getConcept, List.find?, updateConcept]
      have halist : alistPut [(cui1, k1)] cui2 k1 = [(cui1, k1), (cui2, k1)] := by
        simp [alistPut, hne]
      rw [hput, halist]
      rfl
    show (mrconsoStep tuis (catalogAfterMrconso tuis
        [mkConsoRow cui1 "N" s1, mkConsoRow cui2 "N" s2])
        (mkConsoRow cui1 "Y" s3)).catalog = _
    rw [h2, mrconsoStep_clean tuis _ cui1 "Y" s3 hc1 hc1n hs3 hs3n]
    simp only [← ht1def, if_neg ht1]
    rw [if_pos (by simp)]
    have hget : alistGet [(cui1, k1), (cui2, k1)] cui1 = some k1 := by
      simp [alistGet, List.find?]
    rw [hget]
    simp only [hY, if_true]
    simp [updateConcept]
  refine ⟨hcat3, ?_⟩
  rw [hcat3]
  simp only [emitCatalog, sortOrd, insertOrd, List.map_cons, List.map_nil]
  simp [hne]

def c9Tuis : List (String × List String) :=
  [("C0000001", ["T109"]), ("C0000002", ["T109"])]

def c9Rows : List (List String) :=
  [mkConsoRow "C0000001" "N" "Aspirin", mkConsoRow "C0000002" "N" "ASPIRIN",
    mkConsoRow "C0000001" "Y" "Aspirin Prime"]

/-- C9 witness: the collision theorem at two concrete drug CUIs whose
first surfaces "Aspirin" and "ASPIRIN" slugify to the same kg_id. -/
theorem c9_collision_replaces_record_witness :
    (catalogAfterMrconso c9Tuis c9Rows).catalog =
      [⟨"drug_aspirin", "C0000002", "drug", "Aspirin Prime",
        ["ASPIRIN", "Aspirin Prime"], ["UMLS"]⟩]
    ∧ "C0000001" ∉ (emitCatalog (catalogAfterMrconso c9Tuis c9Rows).catalog).map
        (fun c => c.cui) := by
  have h := c9_collision_replaces_record c9Tuis "C0000001" "C0000002"
    "Aspirin" "ASPIRIN" "Aspirin Prime"
    (by decide) (by decide) (by decide) (by decide) (by decide)
    (by decide) (by decide) (by decide) (by decide) (by decide) (by decide)
    (by decide) (by decide) (by decide)
  exact h

/-! ## Claim C8 — canonical_name is a synonym; synonyms sorted, dup-free -/

theorem mem_addSet_self (l : List String) (x : String) : x ∈ addSet l x := by
  unfold addSet
  by_cases h : x ∈ l
  · simp only [if_pos h]
    exact h
  · simp [h]

theorem mem_addSet_of_mem {l : List String} {y : String} (x : String) (h : y ∈ l) :
    y ∈ addSet l x := by
  unfold addSet
  by_cases hx : x ∈ l <;> simp [hx, h]

theorem mem_updateConcept {cat : List ConceptRec} {k : String}
    {f : ConceptRec → ConceptRec} {c : ConceptRec}
    (h : c ∈ updateConcept cat k f) : c ∈ cat ∨ ∃ d ∈ cat, c = f d := by
  induction cat with
  | nil => simp [updateConcept] at h
  | cons a t ih =>
    simp only [updateConcept] at h
    by_cases ha : a.kg_id = k
    · rw [if_pos ha] at h
      rcases List.mem_cons.mp h with h | h
      · exact Or.inr ⟨a, List.mem_cons_self a t, h⟩
      · exact Or.inl (List.mem_cons_of_mem a h)
    · rw [if_neg ha] at h
      rcases List.mem_cons.mp h with h | h
      · exact Or.inl (h ▸ List.mem_cons_self a t)
      · rcases ih h with h | ⟨d, hd, hcd⟩
        · exact Or.inl (List.mem_cons_of_mem a h)
        · exact Or.inr ⟨d, List.mem_cons_of_mem a hd, hcd⟩

theorem mem_putConcept {cat : List ConceptRec} {rec c : ConceptRec}
    (h : c ∈ putConcept cat rec) : c ∈ cat ∨ c = rec := by
  unfold putConcept at h
  cases hg : getConcept cat rec.kg_id with
  | some d =>
    rw [hg] at h
    rcases mem_updateConcept h with h | ⟨_, _, hcd⟩
    · exact Or.inl h
    · exact Or.inr hcd
  | none =>
    rw [hg] at h
    rcases List.mem_append.mp h with h | h
    · exact Or.inl h
    · exact Or.inr (List.mem_singleton.mp h)

theorem foldl_preserve {α β : Type} {P : α → Prop} {f : α → β → α}
    (hf : ∀ a b, P a → P (f a b)) : ∀ (l : List β) (a : α), P a → P (l.foldl f a)
  | [], _, h => h
  | x :: xs, a, h => foldl_preserve hf xs (f a x) (hf a x h)

/-- Invariant: every record's canonical name is among its synonyms. -/
def CanonInv (cat : List ConceptRec) : Prop :=
  ∀ c ∈ cat, c.canonical_name ∈ c.synonyms

theorem canonInv_mrconsoStep (tuis : List (String × List String)) (st : CatState)
    (fields : List String) (h : CanonInv st.catalog) :
    CanonInv (mrconsoStep tuis st fields).catalog := by
  unfold mrconsoStep
  split
  · exact h
  · dsimp only
    split
    · exact h
    · split
      · exact h
      · split
        · exact h
        · split
          · split
            · exact h
            · intro c hc
              rcases mem_updateConcept hc with hc | ⟨d, hd, rfl⟩
              · exact h c hc
              · dsimp only
                split
                · exact mem_addSet_self _ _
                · exact mem_addSet_of_mem _ (h d hd)
          · intro c hc
            rcases mem_putConcept hc with hc | rfl
            · exact h c hc
            · simp

theorem canonInv_addSynonym (cat : List ConceptRec)
    (byNorm : List (String × List String)) (k v src : String)
    (h : CanonInv cat) : CanonInv (addSynonym cat byNorm k v src).1 := by
  unfold addSynonym
  dsimp only
  split
  · exact h
  · split
    · exact h
    · split
      · exact h
      · split
        · exact h
        · intro c hc
          rcases mem_updateConcept hc with hc | ⟨d, hd, rfl⟩
          · exact h c hc
          · exact mem_addSet_of_mem _ (h d hd)

theorem canonInv_enrichName (byNorm : List (String × List String))
    (etype source : String) (cat : List ConceptRec) (name : String)
    (h : CanonInv cat) : CanonInv (enrichName byNorm etype source cat name) := by
  unfold enrichName
  refine foldl_preserve ?_ _ cat h
  intro acc kgId hacc
  split
  · split
    · exact canonInv_addSynonym _ _ _ _ _ hacc
    · exact hacc
  · exact hacc

theorem canonInv_buildCatalog (mrsty mrconso rxn drugbank mesh : List (List String)) :
    ∀ c ∈ buildCatalog mrsty mrconso rxn drugbank mesh,
      c.canonical_name ∈ c.synonyms
      ∧ List.Pairwise (fun a b => strLt a b = true) c.synonyms := by
  intro c hc
  have hst : CanonInv (catalogAfterMrconso (buildCuiTuis mrsty) mrconso).catalog := by
    unfold catalogAfterMrconso
    refine @foldl_preserve CatState (List String)
      (fun st => CanonInv st.catalog) (mrconsoStep (buildCuiTuis mrsty))
      ?_ mrconso ⟨[], [], []⟩ ?_
    · intro a b ha
      exact canonInv_mrconsoStep _ a b ha
    · intro x hx
      simp at hx
  set byNorm := buildByNorm (catalogAfterMrconso (buildCuiTuis mrsty) mrconso).catalog
  have h1 : CanonInv (rxn.foldl (rxnormStep byNorm)
      (catalogAfterMrconso (buildCuiTuis mrsty) mrconso).catalog) := by
    refine foldl_preserve ?_ rxn _ hst
    intro a b ha
    unfold rxnormStep
    split
    · exact ha
    · dsimp only
      split
      · exact ha
      · exact canonInv_enrichName _ _ _ _ _ ha
  have h2 : CanonInv (drugbank.foldl (drugbankStep byNorm)
      (rxn.foldl (rxnormStep byNorm)
        (catalogAfterMrconso (buildCuiTuis mrsty) mrconso).catalog)) := by
    refine foldl_preserve ?_ drugbank _ h1
    intro a b ha
    unfold drugbankStep
    refine foldl_preserve ?_ b a ha
    intro x y hx
    exact canonInv_enrichName _ _ _ _ _ hx
  have h3 : CanonInv (mesh.foldl (meshStep byNorm)
      (drugbank.foldl (drugbankStep byNorm)
        (rxn.foldl (rxnormStep byNorm)
          (catalogAfterMrconso (buildCuiTuis mrsty) mrconso).catalog))) := by
    refine foldl_preserve ?_ mesh _ h2
    intro a b ha
    unfold meshStep
    refine foldl_preserve ?_ b a ha
    intro x y hx
    exact canonInv_enrichName _ _ _ _ _ hx
  have hc2 : c ∈ emitCatalog (mesh.foldl (meshStep byNorm)
      (drugbank.foldl (drugbankStep byNorm)
        (rxn.foldl (rxnormStep byNorm)
          (catalogAfterMrconso (buildCuiTuis mrsty) mrconso).catalog))) := hc
  unfold emitCatalog at hc2
  rcases List.mem_map.mp hc2 with ⟨d, hd, rfl⟩
  have hd3 := mem_sortOrd.mp hd
  constructor
  · exact mem_sortOrd.mpr (List.mem_dedup.mpr (h3 d hd3))
  · exact pairwise_strict_of_nodup (fun hab hba => strLt_connex hab hba)
      (sortOrd_nodup _ (List.nodup_dedup _)) (sortStr_pairwise _)

/-- C8 witness: the invariant theorem at a concrete two-row build whose
single concept has canonical name "Simvastatin" (later preferred row)
and sorted synonyms ["Simvastatin", "Zocor"]. -/
theorem canonInv_buildCatalog_witness :
    "Simvastatin" ∈ (["Simvastatin", "Zocor"] : List String)
    ∧ List.Pairwise (fun a b => strLt a b = true)
        (["Simvastatin", "Zocor"] : List String) := by
  have h := canonInv_buildCatalog [["C1", "T109", "", ""]]
    [mkConsoRow "C1" "N" "Zocor", mkConsoRow "C1" "Y" "Simvastatin"] [] [] []
    ⟨"drug_zocor", "C1", "drug", "Simvastatin", ["Simvastatin", "Zocor"], ["UMLS"]⟩
    (by decide)
  exact h

/-! ## Claim C5 — multi-hit surfaces in stages 03 and 04 -/

theorem foldl_establishes {α β : Type} {g : α → β → α} {Q : β → α → Prop}
    (hpres : ∀ a b x, Q x a → Q x (g a b))
    (hadd : ∀ a b, Q b (g a b)) :
    ∀ (l : List β) (a : α), ∀ x ∈ l, Q x (l.foldl g a)
  | b :: bs, a, x, hx => by
    rcases List.mem_cons.mp hx with hx | hx
    · rw [hx]
      exact foldl_preserve (fun a2 b2 h => hpres a2 b2 b h) bs (g a b) (hadd a b)
    · exact foldl_establishes hpres hadd bs (g a b) x hx

theorem keySeen_iff_mem (s : List (String × String × String))
    (k : String × String × String) : keySeen s k = true ↔ k ∈ s := by
  unfold keySeen
  induction s with
  | nil => simp
  | cons a t ih =>
    simp only [List.contains_cons, Bool.or_eq_true, beq_iff_eq, List.mem_cons, ih]

/-- Provenance invariant of the edge accumulators: every seen key has a
matching emitted row. -/
def SeenRows (acc : EdgeAcc) : Prop :=
  ∀ k ∈ acc.seen, ∃ e ∈ acc.rows, (e.h, e.r, e.t) = k

theorem seenRows_insert {acc : EdgeAcc} (h : SeenRows acc)
    (key : String × String × String) (edge : Edge)
    (hk : (edge.h, edge.r, edge.t) = key) :
    SeenRows ⟨acc.seen ++ [key], acc.rows ++ [edge]⟩ := by
  intro k hkmem
  rcases List.mem_append.mp hkmem with hkm | hkm
  · rcases h k hkm with ⟨e, he, hke⟩
    exact ⟨e, List.mem_append_left _ he, hke⟩
  · refine ⟨edge, List.mem_append_right _ (List.mem_singleton.mpr rfl), ?_⟩
    rw [List.mem_singleton.mp hkm]
    exact hk

/-- Shape of the drug-hits × disease-hits double loop shared by stages
03 and 04 (proof-local abbreviation; definitionally equal to the inner
loop bodies of `siderStep` and `ctdStep` once the per-row strings are
fixed). -/
def pairG (rel src ev : String) (score : DecNum) (es : List String) :
    EdgeAcc → String → EdgeAcc :=
  fun a d => es.foldl (fun a2 e =>
    let key := (d, rel, e)
    if keySeen a2.seen key then a2
    else ⟨a2.seen ++ [key], a2.rows ++ [⟨d, rel, e, src, score, ev⟩]⟩) a

theorem pairG_mono (rel src ev : String) (score : DecNum) (es : List String)
    (a : EdgeAcc) (d : String) (k : String × String × String)
    (h : k ∈ a.seen) : k ∈ (pairG rel src ev score es a d).seen := by
  unfold pairG
  refine @foldl_preserve EdgeAcc String (fun a2 => k ∈ a2.seen) _ ?_ es a h
  intro a2 e hk
  dsimp only
  split
  · exact hk
  · exact List.mem_append_left _ hk

theorem pairG_seenRows (rel src ev : String) (score : DecNum) (es : List String)
    (a : EdgeAcc) (d : String) (h : SeenRows a) :
    SeenRows (pairG rel src ev score es a d) := by
  unfold pairG
  refine @foldl_preserve EdgeAcc String SeenRows _ ?_ es a h
  intro a2 e hk
  dsimp only
  split
  · exact hk
  · exact seenRows_insert hk (d, rel, e) ⟨d, rel, e, src, score, ev⟩ rfl

theorem pairG_adds (rel src ev : String) (score : DecNum) (es : List String)
    (a : EdgeAcc) (d : String) :
    ∀ e ∈ es, (d, rel, e) ∈ (pairG rel src ev score es a d).seen := by
  unfold pairG
  refine @foldl_establishes EdgeAcc String _
    (fun e a2 => (d, rel, e) ∈ a2.seen) ?_ ?_ es a
  · intro a2 e x hx
    dsimp only
    split
    · exact hx
    · exact List.mem_append_left _ hx
  · intro a2 e
    dsimp only
    split
    · rename_i hseen
      exact (keySeen_iff_mem _ _).mp hseen
    · exact List.mem_append_right _ (List.mem_singleton.mpr rfl)

theorem pairFold_seenRows (rel src ev : String) (score : DecNum)
    (ds es : List String) (acc : EdgeAcc) (h : SeenRows acc) :
    SeenRows (ds.foldl (pairG rel src ev score es) acc) :=
  foldl_preserve (fun a d ha => pairG_seenRows rel src ev score es a d ha) ds acc h

theorem pairFold_complete (rel src ev : String) (score : DecNum)
    (ds es : List String) (acc : EdgeAcc) (hacc : SeenRows acc) :
    ∀ d ∈ ds, ∀ e ∈ es,
      ∃ edge ∈ (ds.foldl (pairG rel src ev score es) acc).rows,
        edge.h = d ∧ edge.r = rel ∧ edge.t = e := by
  intro d hd e he
  have hseen : (d, rel, e) ∈ (ds.foldl (pairG rel src ev score es) acc).seen := by
    refine @foldl_establishes EdgeAcc String _
      (fun d2 a => ∀ e2 ∈ es, (d2, rel, e2) ∈ a.seen) ?_ ?_ ds acc d hd e he
    · intro a b x hx e2 he2
      exact pairG_mono rel src ev score es a b _ (hx e2 he2)
    · intro a b e2 he2
      exact pairG_adds rel src ev score es a b e2 he2
  rcases pairFold_seenRows rel src ev score ds es acc hacc _ hseen with ⟨edge, hmem, hkey⟩
  refine ⟨edge, hmem, ?_⟩
  have h1 : edge.h = d := congrArg Prod.fst hkey
  have h2 : edge.r = rel := congrArg (fun p => p.2.1) hkey
  have h3 : edge.t = e := congrArg (fun p => p.2.2) hkey
  exact ⟨h1, h2, h3⟩

/-- SIDER meddra row with the given STITCH id in column 0 and the
side-effect text in the last of its 6 columns. -/
def mkSiderRow (stitch effect : String) : List String :=
  [stitch, "", "", "", "", effect]

/-- CTD row with ChemicalName, DiseaseName and DirectEvidence in
columns 0, 3 and 4 (6 columns, so no inference score is present). -/
def mkCtdRow (chem dis ev : String) : List String :=
  [chem, "", "", dis, ev, ""]

/-- C5 amended: in stages 03 and 04 a name whose normalized surface
resolves to MORE than one kg_id is NOT rejected — an edge is emitted for
every (drug-side hit, disease-side hit) pair — while a name resolving to
zero kg_ids contributes no edges; no single kg_id is picked, because all
of them are used. -/
theorem c5_multi_hit_emits_all_pairs
    (cat : List ConceptRec) (dnRows : List (List String))
    (stitch effect dn chem dis ev : String)
    (hst : pyStrip stitch = stitch) (hstn : stitch ≠ "")
    (hdn : alistGet (buildStitchMap dnRows) stitch = some dn) (hdnn : dn ≠ "")
    (hef : pyStrip effect = effect) (hefn : effect ≠ "")
    (hchem : pyStrip chem = chem)
    (hchemhash : startsWithChars ['#'] chem.data = false)
    (hchemhdr : chem ≠ "ChemicalName")
    (hdis : pyStrip dis = dis) (hev : pyStrip ev = ev) :
    (∀ dHits eHits,
      alistGet (buildSurfaceIdx cat).1 (normalize_surface dn) = some dHits →
      alistGet (buildSurfaceIdx cat).2 (normalize_surface effect) = some eHits →
      dHits ≠ [] → eHits ≠ [] →
      ∀ d ∈ dHits, ∀ e ∈ eHits,
        ∃ edge ∈ edgesSider cat dnRows [mkSiderRow stitch effect],
          edge.h = d ∧ edge.r = "ADVERSE_EFFECT" ∧ edge.t = e)
    ∧ ((alistGet (buildSurfaceIdx cat).1 (normalize_surface dn)).getD [] = [] →
        edgesSider cat dnRows [mkSiderRow stitch effect] = [])
    ∧ (∀ chemHits disHits,
      alistGet (buildSurfaceIdx cat).1 (normalize_surface chem) = some chemHits →
      alistGet (buildSurfaceIdx cat).2 (normalize_surface dis) = some disHits →
      chemHits ≠ [] → disHits ≠ [] →
      ∀ h ∈ chemHits, ∀ t ∈ disHits,
        ∃ edge ∈ edgesCtd cat [mkCtdRow chem dis ev],
          edge.h = h
          ∧ edge.r = (if containsSub (pyLower ev) "therapeutic" then "TREATS"
              else "ASSOCIATED_WITH")
          ∧ edge.t = t)
    ∧ ((alistGet (buildSurfaceIdx cat).1 (normalize_surface chem)).getD [] = [] →
        edgesCtd cat [mkCtdRow chem dis ev] = []) := by
  have hslen : ((mkSiderRow stitch effect).length < 6) = False := by
    simp [mkSiderRow]
  have hsg0 : (mkSiderRow stitch effect).getD 0 "" = stitch := rfl
  have hsgl : (mkSiderRow stitch effect).getLast?.getD "" = effect := rfl
  have hclen : ((mkCtdRow chem dis ev).length < 6) = False := by
    simp [mkCtdRow]
  have hcg0 : (mkCtdRow chem dis ev).getD 0 "" = chem := rfl
  have hcg3 : (mkCtdRow chem dis ev).getD 3 "" = dis := rfl
  have hcg4 : (mkCtdRow chem dis ev).getD 4 "" = ev := rfl
  have hcempty : (mkCtdRow chem dis ev).isEmpty = false := rfl
  have hc7 : (7 < (mkCtdRow chem dis ev).length) = False := by
    simp [mkCtdRow]
  refine ⟨?_, ?_, ?_, ?_⟩
  · intro dHits eHits hdh heh hdne hene d hd e he
    have hrows : edgesSider cat dnRows [mkSiderRow stitch effect] =
        ((sortStr dHits).foldl
          (pairG "ADVERSE_EFFECT" "SIDER" (dn ++ " -> " ++ effect) ⟨9, 1⟩
            (sortStr eHits)) ⟨[], []⟩).rows := by
      show (siderStep (buildSurfaceIdx cat).1 (buildSurfaceIdx cat).2
          (buildStitchMap dnRows) ⟨[], []⟩ (mkSiderRow stitch effect)).rows = _
      simp only [siderStep, hslen, if_false, hsg0, hsgl, hst, hef]
      rw [if_pos hstn]
      simp only [hdn, Option.getD_some, hdh, heh]
      rw [if_neg (show ¬(dn = "" ∨ effect = "") by simp [hdnn, hefn])]
      rw [if_neg hdne, if_neg hene]
      rfl
    rw [hrows]
    exact pairFold_complete "ADVERSE_EFFECT" "SIDER" (dn ++ " -> " ++ effect)
      ⟨9, 1⟩ (sortStr dHits) (sortStr eHits) ⟨[], []⟩
      (by intro k hk; simp at hk)
      d (mem_sortOrd.mpr hd) e (mem_sortOrd.mpr he)
  · intro hzero
    show (siderStep (buildSurfaceIdx cat).1 (buildSurfaceIdx cat).2
        (buildStitchMap dnRows) ⟨[], []⟩ (mkSiderRow stitch effect)).rows = []
    simp only [siderStep, hslen, if_false, hsg0, hsgl, hst, hef]
    rw [if_pos hstn]
    simp only [hdn, Option.getD_some, hzero]
    rw [if_neg (show ¬(dn = "" ∨ effect = "") by simp [hdnn, hefn])]
    rfl
  · intro chemHits disHits hch hdh2 hchne hdne2 h hh t ht
    have hrows : edgesCtd cat [mkCtdRow chem dis ev] =
        ((sortStr chemHits).foldl
          (pairG (if containsSub (pyLower ev) "therapeutic" then "TREATS"
              else "ASSOCIATED_WITH")
            "CTD" (chem ++ " -> " ++ dis ++ " (" ++ pyLower ev ++ ")")
            (ctdScore "") (sortStr disHits)) ⟨[], []⟩).rows := by
      show (ctdStep (buildSurfaceIdx cat).1 (buildSurfaceIdx cat).2
          ⟨[], []⟩ (mkCtdRow chem dis ev)).rows = _
      simp only [ctdStep, hcempty, hclen, hc7, if_false, Bool.false_eq_true,
        hcg0, hcg3, hcg4, hchem, hdis, hev, hchemhash, hch, hdh2,
        Option.getD_some]
      rw [if_neg hchemhdr]
      rw [if_neg hchne, if_neg hdne2]
      rfl
    rw [hrows]
    exact pairFold_complete _ "CTD" (chem ++ " -> " ++ dis ++ " (" ++ pyLower ev ++ ")")
      (ctdScore "") (sortStr chemHits) (sortStr disHits) ⟨[], []⟩
      (by intro k hk; simp at hk)
      h (mem_sortOrd.mpr hh) t (mem_sortOrd.mpr ht)
  · intro hzero
    show (ctdStep (buildSurfaceIdx cat).1 (buildSurfaceIdx cat).2
        ⟨[], []⟩ (mkCtdRow chem dis ev)).rows = []
    simp only [ctdStep, hcempty, hclen, hc7, if_false, Bool.false_eq_true,
      hcg0, hcg3, hcg4, hchem, hdis, hev, hchemhash, hzero]
    rw [if_neg hchemhdr]
    rfl

def c5Cat : List ConceptRec :=
  [⟨"drug_aspirin", "C1", "drug", "Aspirin", ["Aspirin"], ["UMLS"]⟩,
   ⟨"drug_aspirin_x", "C2", "drug", "Aspirin X", ["Aspirin X", "Aspirin"], ["UMLS"]⟩,
   ⟨"disease_headache", "C3", "disease", "Headache", ["Headache"], ["UMLS"]⟩]

def c5DrugNames : List (List String) := [["CID1", "Aspirin"]]

def c5Meddra : List (List String) := [["CID1", "", "", "", "", "Headache"]]

/-- C5 counterexample: the SIDER drug name "Aspirin" is ambiguous — its
normalized surface is owned by the two kg_ids drug_aspirin and
drug_aspirin_x — yet stage 03 does NOT reject it: it emits an
ADVERSE_EFFECT edge for both hits, so the name contributes edges and
both elements of the multi-element hit set are used. -/
theorem c5_ambiguous_surface_not_rejected :
    alistGet (buildSurfaceIdx c5Cat).1 (normalize_surface "Aspirin") =
      some ["drug_aspirin", "drug_aspirin_x"]
    ∧ edgesSider c5Cat c5DrugNames c5Meddra =
        [⟨"drug_aspirin", "ADVERSE_EFFECT", "disease_headache", "SIDER", ⟨9, 1⟩,
          "Aspirin -> Headache"⟩,
         ⟨"drug_aspirin_x", "ADVERSE_EFFECT", "disease_headache", "SIDER", ⟨9, 1⟩,
          "Aspirin -> Headache"⟩]
    ∧ edgesSider c5Cat c5DrugNames c5Meddra ≠ [] := by
  refine ⟨rfl, rfl, ?_⟩
  decide

/-- C5 witness: the amended theorem at the concrete two-hit catalog; the
second hit drug_aspirin_x also receives an edge. -/
theorem c5_multi_hit_emits_all_pairs_witness :
    ∃ edge ∈ edgesSider c5Cat c5DrugNames [mkSiderRow "CID1" "Headache"],
      edge.h = "drug_aspirin_x" ∧ edge.r = "ADVERSE_EFFECT"
      ∧ edge.t = "disease_headache" :=
  (c5_multi_hit_emits_all_pairs c5Cat c5DrugNames "CID1" "Headache" "Aspirin"
      "x" "y" "z"
      (by decide) (by decide) (by decide) (by decide) (by decide) (by decide)
      (by decide) (by decide) (by decide) (by decide) (by decide)).1
    ["drug_aspirin", "drug_aspirin_x"] ["disease_headache"] (by decide) (by decide)
    (by decide) (by decide) "drug_aspirin_x" (by decide) "disease_headache" (by decide)

/-! ## Association-list lemmas for stage 06 -/

theorem alistGet_nil {α : Type} (k : String) :
    alistGet ([] : List (String × α)) k = none := rfl

theorem alistGet_cons {α : Type} (p : String × α) (ps : List (String × α))
    (k : String) :
    alistGet (p :: ps) k = if p.1 = k then some p.2 else alistGet ps k := by
  simp only [alistGet]
  by_cases hp : p.1 = k
  · rw [List.find?_cons_of_pos _ (by simpa using hp), if_pos hp]
  · rw [List.find?_cons_of_neg _ (by simpa using hp), if_neg hp]

theorem alistGet_put_self {α : Type} (l : List (String × α)) (k : String) (v : α) :
    alistGet (alistPut l k v) k = some v := by
  induction l with
  | nil => simp [alistPut, alistGet_cons]
  | cons p ps ih =>
    simp only [alistPut]
    by_cases hp : p.1 = k
    · rw [if_pos hp, alistGet_cons, if_pos rfl]
    · rw [if_neg hp, alistGet_cons, if_neg hp]
      exact ih

theorem alistGet_put_other {α : Type} (l : List (String × α)) (k k2 : String)
    (v : α) (hne : k2 ≠ k) : alistGet (alistPut l k v) k2 = alistGet l k2 := by
  induction l with
  | nil => simp [alistPut, alistGet_cons, Ne.symm hne]
  | cons p ps ih =>
    simp only [alistPut]
    by_cases hp : p.1 = k
    · rw [if_pos hp, alistGet_cons, alistGet_cons, if_neg (by simp [Ne.symm hne]),
        if_neg (by rw [hp]; simp [Ne.symm hne])]
    · rw [if_neg hp, alistGet_cons, alistGet_cons]
      by_cases hp2 : p.1 = k2
      · rw [if_pos hp2, if_pos hp2]
      · rw [if_neg hp2, if_neg hp2]
        exact ih

theorem alistGet_eq_some_mem {α : Type} {l : List (String × α)} {k : String}
    {v : α} (h : alistGet l k = some v) : (k, v) ∈ l := by
  induction l with
  | nil => simp [alistGet_nil] at h
  | cons p ps ih =>
    rw [alistGet_cons] at h
    by_cases hp : p.1 = k
    · rw [if_pos hp] at h
      cases h
      rcases p with ⟨a, b⟩
      cases hp
      exact List.mem_cons_self _ _
    · rw [if_neg hp] at h
      exact List.mem_cons_of_mem p (ih h)

theorem alistGet_isSome_iff {α : Type} (l : List (String × α)) (k : String) :
    (alistGet l k).isSome ↔ k ∈ l.map Prod.fst := by
  induction l with
  | nil => simp [alistGet_nil]
  | cons p ps ih =>
    rw [alistGet_cons]
    by_cases hp : p.1 = k
    · rw [if_pos hp]
      simp [hp]
    · rw [if_neg hp]
      simp only [List.map_cons, List.mem_cons, ih]
      constructor
      · exact Or.inr
      · rintro (h | h)
        · exact absurd h.symm hp
        · exact h

theorem alistGet_none_of_not_mem {α : Type} {l : List (String × α)} {k : String}
    (h : k ∉ l.map Prod.fst) : alistGet l k = none := by
  cases hg : alistGet l k with
  | none => rfl
  | some v => exact absurd ((alistGet_isSome_iff l k).mp (by simp [hg])) h

theorem alistGet_mem_of_nodup {α : Type} {l : List (String × α)} {k : String}
    {v : α} (hnd : (l.map Prod.fst).Nodup) (h : (k, v) ∈ l) :
    alistGet l k = some v := by
  induction l with
  | nil => simp at h
  | cons p ps ih =>
    simp only [List.map_cons, List.nodup_cons] at hnd
    rcases List.mem_cons.mp h with h | h
    · rw [← h, alistGet_cons, if_pos rfl]
    · have hp : p.1 ≠ k := by
        intro hk
        exact hnd.1 (hk ▸ (List.mem_map.mpr ⟨(k, v), h, rfl⟩))
      rw [alistGet_cons, if_neg hp]
      exact ih hnd.2 h

theorem alistGet_append_some {α : Type} {l1 : List (String × α)}
    (l2 : List (String × α)) {k : String} {v : α}
    (h : alistGet l1 k = some v) : alistGet (l1 ++ l2) k = some v := by
  induction l1 with
  | nil => simp [alistGet_nil] at h
  | cons p ps ih =>
    rw [alistGet_cons] at h
    rw [List.cons_append, alistGet_cons]
    by_cases hp : p.1 = k
    · rw [if_pos hp] at h ⊢
      exact h
    · rw [if_neg hp] at h ⊢
      exact ih h

theorem alistGet_append_none {α : Type} {l1 : List (String × α)}
    (l2 : List (String × α)) {k : String}
    (h : alistGet l1 k = none) : alistGet (l1 ++ l2) k = alistGet l2 k := by
  induction l1 with
  | nil => simp
  | cons p ps ih =>
    rw [alistGet_cons] at h
    rw [List.cons_append, alistGet_cons]
    by_cases hp : p.1 = k
    · rw [if_pos hp] at h
      cases h
    · rw [if_neg hp] at h ⊢
      exact ih h

theorem alistPut_keys_sub {α : Type} (l : List (String × α)) (k : String) (v : α) :
    ∀ k2, k2 ∈ (alistPut l k v).map Prod.fst → k2 = k ∨ k2 ∈ l.map Prod.fst := by
  induction l with
  | nil =>
    intro k2 hk2
    simp only [alistPut, List.map_cons, List.map_nil] at hk2
    rcases List.mem_cons.mp hk2 with h | h
    · exact Or.inl h
    · simp at h
  | cons p ps ih =>
    intro k2 hk2
    simp only [alistPut] at hk2
    by_cases hp : p.1 = k
    · rw [if_pos hp, List.map_cons] at hk2
      rcases List.mem_cons.mp hk2 with h | h
      · exact Or.inl h
      · exact Or.inr (by rw [List.map_cons]; exact List.mem_cons_of_mem _ h)
    · rw [if_neg hp, List.map_cons] at hk2
      rcases List.mem_cons.mp hk2 with h | h
      · exact Or.inr (by rw [List.map_cons]; exact h ▸ List.mem_cons_self _ _)
      · rcases ih k2 h with h | h
        · exact Or.inl h
        · exact Or.inr (by rw [List.map_cons]; exact List.mem_cons_of_mem _ h)

theorem alistPut_keys_nodup {α : Type} (l : List (String × α)) (k : String)
    (v : α) (hnd : (l.map Prod.fst).Nodup) :
    ((alistPut l k v).map Prod.fst).Nodup := by
  induction l with
  | nil => simp [alistPut]
  | cons p ps ih =>
    simp only [List.map_cons, List.nodup_cons] at hnd
    simp only [alistPut]
    by_cases hp : p.1 = k
    · rw [if_pos hp]
      simp only [List.map_cons, List.nodup_cons]
      exact ⟨fun hmem => hnd.1 (hp ▸ hmem), hnd.2⟩
    · rw [if_neg hp]
      simp only [List.map_cons, List.nodup_cons]
      refine ⟨fun hmem => ?_, ih hnd.2⟩
      rcases alistPut_keys_sub ps k v p.1 hmem with h | h
      · exact hp h
      · exact hnd.1 h

theorem multiAdd_get_self (bs : List (String × List String)) (k v : String) :
    v ∈ (alistGet (multiAdd bs k v) k).getD [] := by
  unfold multiAdd
  cases hg : alistGet bs k with
  | some vs =>
    rw [alistGet_put_self]
    exact mem_addSet_self vs v
  | none =>
    rw [alistGet_append_none _ hg, alistGet_cons, if_pos rfl]
    simp

theorem multiAdd_get_other (bs : List (String × List String)) (k k2 v : String)
    (hne : k2 ≠ k) : alistGet (multiAdd bs k v) k2 = alistGet bs k2 := by
  unfold multiAdd
  cases hg : alistGet bs k with
  | some vs => exact alistGet_put_other bs k k2 _ hne
  | none =>
    cases hg2 : alistGet bs k2 with
    | some vs2 => exact alistGet_append_some _ hg2
    | none =>
      rw [alistGet_append_none _ hg2, alistGet_cons, if_neg (Ne.symm hne)]
      rfl

theorem multiAdd_mono {bs : List (String × List String)} {k2 x : String}
    (k v : String) (h : x ∈ (alistGet bs k2).getD []) :
    x ∈ (alistGet (multiAdd bs k v) k2).getD [] := by
  by_cases hk : k2 = k
  · subst hk
    unfold multiAdd
    cases hg : alistGet bs k2 with
    | some vs =>
      rw [alistGet_put_self]
      rw [hg] at h
      exact mem_addSet_of_mem v h
    | none =>
      rw [hg] at h
      simp at h
  · rw [multiAdd_get_other bs k k2 v hk]
    exact h

theorem multiAdd_keys_sub (bs : List (String × List String)) (k v : String) :
    ∀ k2, k2 ∈ (multiAdd bs k v).map Prod.fst → k2 = k ∨ k2 ∈ bs.map Prod.fst := by
  intro k2 hk2
  unfold multiAdd at hk2
  cases hg : alistGet bs k with
  | some vs =>
    rw [hg] at hk2
    exact alistPut_keys_sub bs k _ k2 hk2
  | none =>
    rw [hg] at hk2
    rw [List.map_append] at hk2
    rcases List.mem_append.mp hk2 with h | h
    · exact Or.inr h
    · exact Or.inl (by simpa using h)

theorem multiAdd_keys_nodup (bs : List (String × List String)) (k v : String)
    (hnd : (bs.map Prod.fst).Nodup) : ((multiAdd bs k v).map Prod.fst).Nodup := by
  unfold multiAdd
  cases hg : alistGet bs k with
  | some vs => exact alistPut_keys_nodup bs k _ hnd
  | none =>
    rw [List.map_append]
    refine List.Nodup.append hnd (by simp) ?_
    intro a ha hb
    simp only [List.map_cons, List.map_nil, List.mem_singleton] at hb
    subst hb
    have hsome := (alistGet_isSome_iff bs a).mpr ha
    rw [hg] at hsome
    simp at hsome

theorem foldl_preserve_mem {α β : Type} {P : α → Prop} {f : α → β → α} :
    ∀ (l : List β), (∀ a b, b ∈ l → P a → P (f a b)) → ∀ a, P a → P (l.foldl f a)
  | [], _, _, h => h
  | x :: xs, hf, a, h =>
    foldl_preserve_mem xs (fun a2 b hb => hf a2 b (List.mem_cons_of_mem _ hb))
      (f a x) (hf a x (List.mem_cons_self _ _) h)

/-- Invariant: every record's canonical name is stripped and nonempty
(true of every catalog stage 01 produces, because canonical names only
ever come from the guarded, stripped MRCONSO surface text). -/
def CanonNE (cat : List ConceptRec) : Prop :=
  ∀ c ∈ cat, pyStrip c.canonical_name = c.canonical_name ∧ c.canonical_name ≠ ""

theorem canonNE_mrconsoStep (tuis : List (String × List String)) (st : CatState)
    (fields : List String) (h : CanonNE st.catalog) :
    CanonNE (mrconsoStep tuis st fields).catalog := by
  unfold mrconsoStep
  split
  · exact h
  · dsimp only
    split
    · exact h
    · rename_i hguard
      have htn : pyStrip (fields.getD 14 "") ≠ "" := by
        intro he
        exact hguard (Or.inr he)
      split
      · exact h
      · split
        · exact h
        · split
          · split
            · exact h
            · intro c hc
              rcases mem_updateConcept hc with hc | ⟨d, hd, rfl⟩
              · exact h c hc
              · dsimp only
                split
                · exact ⟨pyStrip_idem _, htn⟩
                · exact h d hd
          · intro c hc
            rcases mem_putConcept hc with hc | rfl
            · exact h c hc
            · exact ⟨pyStrip_idem _, htn⟩

theorem canonNE_addSynonym (cat : List ConceptRec)
    (byNorm : List (String × List String)) (k v src : String)
    (h : CanonNE cat) : CanonNE (addSynonym cat byNorm k v src).1 := by
  unfold addSynonym
  dsimp only
  split
  · exact h
  · split
    · exact h
    · split
      · exact h
      · split
        · exact h
        · intro c hc
          rcases mem_updateConcept hc with hc | ⟨d, hd, rfl⟩
          · exact h c hc
          · exact h d hd

theorem canonNE_enrichName (byNorm : List (String × List String))
    (etype source : String) (cat : List ConceptRec) (name : String)
    (h : CanonNE cat) : CanonNE (enrichName byNorm etype source cat name) := by
  unfold enrichName
  refine foldl_preserve ?_ _ cat h
  intro acc kgId hacc
  split
  · split
    · exact canonNE_addSynonym _ _ _ _ _ hacc
    · exact hacc
  · exact hacc

theorem canonNE_buildCatalog (mrsty mrconso rxn drugbank mesh : List (List String)) :
    CanonNE (buildCatalog mrsty mrconso rxn drugbank mesh) := by
  have hst : CanonNE (catalogAfterMrconso (buildCuiTuis mrsty) mrconso).catalog := by
    unfold catalogAfterMrconso
    refine @foldl_preserve CatState (List String)
      (fun st => CanonNE st.catalog) (mrconsoStep (buildCuiTuis mrsty))
      ?_ mrconso ⟨[], [], []⟩ ?_
    · intro a b ha
      exact canonNE_mrconsoStep _ a b ha
    · intro x hx
      simp at hx
  set byNorm := buildByNorm (catalogAfterMrconso (buildCuiTuis mrsty) mrconso).catalog
  have h1 : CanonNE (rxn.foldl (rxnormStep byNorm)
      (catalogAfterMrconso (buildCuiTuis mrsty) mrconso).catalog) := by
    refine foldl_preserve ?_ rxn _ hst
    intro a b ha
    unfold rxnormStep
    split
    · exact ha
    · dsimp only
      split
      · exact ha
      · exact canonNE_enrichName _ _ _ _ _ ha
  have h2 : CanonNE (drugbank.foldl (drugbankStep byNorm)
      (rxn.foldl (rxnormStep byNorm)
        (catalogAfterMrconso (buildCuiTuis mrsty) mrconso).catalog)) := by
    refine foldl_preserve ?_ drugbank _ h1
    intro a b ha
    exact foldl_preserve (fun x y hx => canonNE_enrichName _ _ _ _ _ hx) b a ha
  have h3 : CanonNE (mesh.foldl (meshStep byNorm)
      (drugbank.foldl (drugbankStep byNorm)
        (rxn.foldl (rxnormStep byNorm)
          (catalogAfterMrconso (buildCuiTuis mrsty) mrconso).catalog))) := by
    refine foldl_preserve ?_ mesh _ h2
    intro a b ha
    exact foldl_preserve (fun x y hx => canonNE_enrichName _ _ _ _ _ hx) b a ha
  intro c hc
  have hc2 : c ∈ emitCatalog (mesh.foldl (meshStep byNorm)
      (drugbank.foldl (drugbankStep byNorm)
        (rxn.foldl (rxnormStep byNorm)
          (catalogAfterMrconso (buildCuiTuis mrsty) mrconso).catalog))) := hc
  unfold emitCatalog at hc2
  rcases List.mem_map.mp hc2 with ⟨d, hd, rfl⟩
  exact h3 d (mem_sortOrd.mp hd)

theorem outFold_inv (baseSets kgToSyns : List (String × List String)) :
    ∀ (ks : List String), ks.Nodup →
      (∀ k ∈ ks, sortCF ((alistGet baseSets k).getD []) ≠ []) →
      ∀ out : List (String × List String) × List (String × List String),
      (∀ k os, alistGet out.2 k = some os →
        ∃ bs, alistGet out.1 k = some bs ∧ ∀ s ∈ os, s ∉ bs) →
      (∀ k ∈ ks, k ∉ out.1.map Prod.fst) →
      (∀ k ∈ ks, k ∉ out.2.map Prod.fst) →
      ∀ k os,
        alistGet (ks.foldl (stage06OutStep baseSets kgToSyns) out).2 k = some os →
        ∃ bs, alistGet (ks.foldl (stage06OutStep baseSets kgToSyns) out).1 k = some bs
          ∧ ∀ s ∈ os, s ∉ bs := by
  intro ks
  induction ks with
  | nil =>
    intro _ _ out hout _ _ k os h
    exact hout k os h
  | cons kid rest ih =>
    intro hnd hgood out hout hd1 hd2
    simp only [List.foldl_cons]
    have hnd2 := List.nodup_cons.mp hnd
    have hbase : sortCF ((alistGet baseSets kid).getD []) ≠ [] :=
      hgood kid (List.mem_cons_self _ _)
    have hkid1 : alistGet out.1 kid = none :=
      alistGet_none_of_not_mem (hd1 kid (List.mem_cons_self _ _))
    have hkid2 : alistGet out.2 kid = none :=
      alistGet_none_of_not_mem (hd2 kid (List.mem_cons_self _ _))
    by_cases hex : sortCF (((alistGet kgToSyns kid).getD []).filter
        (fun s => s ∉ sortCF ((alistGet baseSets kid).getD []))) ≠ []
    · have hstep : stage06OutStep baseSets kgToSyns out kid =
          (out.1 ++ [(kid, sortCF ((alistGet baseSets kid).getD []))],
           out.2 ++ [(kid, sortCF (((alistGet kgToSyns kid).getD []).filter
              (fun s => s ∉ sortCF ((alistGet baseSets kid).getD []))))]) := by
        simp only [stage06OutStep]
        rw [if_pos hbase]
        rw [if_pos hex]
      rw [hstep]
      refine ih hnd2.2 (fun k hk => hgood k (List.mem_cons_of_mem _ hk)) _ ?_ ?_ ?_
      · intro k os h
        cases hg : alistGet out.2 k with
        | some os0 =>
          have h2 := alistGet_append_some
            [(kid, sortCF (((alistGet kgToSyns kid).getD []).filter
              (fun s => s ∉ sortCF ((alistGet baseSets kid).getD []))))] hg
          rw [h] at h2
          cases h2
          rcases hout k os hg with ⟨bs, hbs1, hdisj⟩
          exact ⟨bs, alistGet_append_some _ hbs1, hdisj⟩
        | none =>
          rw [alistGet_append_none _ hg, alistGet_cons] at h
          by_cases hk : kid = k
          · rw [if_pos hk] at h
            cases h
            subst hk
            refine ⟨sortCF ((alistGet baseSets kid).getD []), ?_, ?_⟩
            · rw [alistGet_append_none _ hkid1, alistGet_cons, if_pos rfl]
            · intro s hs
              have hs2 := mem_sortOrd.mp hs
              have hs3 := List.of_mem_filter hs2
              simpa using hs3
          · rw [if_neg hk] at h
            cases h
      · intro k hk
        rw [List.map_append]
        intro hmem
        rcases List.mem_append.mp hmem with h | h
        · exact hd1 k (List.mem_cons_of_mem _ hk) h
        · simp only [List.map_cons, List.map_nil, List.mem_singleton] at h
          exact hnd2.1 (h ▸ hk)
      · intro k hk
        rw [List.map_append]
        intro hmem
        rcases List.mem_append.mp hmem with h | h
        · exact hd2 k (List.mem_cons_of_mem _ hk) h
        · simp only [List.map_cons, List.map_nil, List.mem_singleton] at h
          exact hnd2.1 (h ▸ hk)
    · have hstep : stage06OutStep baseSets kgToSyns out kid =
          (out.1 ++ [(kid, sortCF ((alistGet baseSets kid).getD []))], out.2) := by
        simp only [stage06OutStep]
        rw [if_pos hbase]
        rw [if_neg hex]
      rw [hstep]
      refine ih hnd2.2 (fun k hk => hgood k (List.mem_cons_of_mem _ hk)) _ ?_ ?_ ?_
      · intro k os h
        rcases hout k os h with ⟨bs, hbs1, hdisj⟩
        exact ⟨bs, alistGet_append_some _ hbs1, hdisj⟩
      · intro k hk
        rw [List.map_append]
        intro hmem
        rcases List.mem_append.mp hmem with h | h
        · exact hd1 k (List.mem_cons_of_mem _ hk) h
        · simp only [List.map_cons, List.map_nil, List.mem_singleton] at h
          exact hnd2.1 (h ▸ hk)
      · intro k hk
        exact hd2 k (List.mem_cons_of_mem _ hk)

theorem stage06Maps_canonical (cat : List ConceptRec)
    (hcanon : ∀ c ∈ cat, pyStrip c.canonical_name ≠ "") :
    ∀ k, (alistGet (stage06Maps cat).1 k).isSome →
      ∃ v, alistGet (stage06Maps cat).2.2 k = some v ∧ v ≠ "" := by
  unfold stage06Maps
  refine @foldl_preserve_mem
    (List (String × String) × List (String × List String) × List (String × String))
    ConceptRec
    (fun m => ∀ k, (alistGet m.1 k).isSome →
      ∃ v, alistGet m.2.2 k = some v ∧ v ≠ "") _ cat ?_ ([], [], []) ?_
  · intro m row hrow hm
    dsimp only
    split
    · exact hm
    · intro k hk
      dsimp only at hk ⊢
      by_cases hkk : k = row.kg_id
      · subst hkk
        exact ⟨pyStrip row.canonical_name, alistGet_put_self _ _ _, hcanon row hrow⟩
      · rw [alistGet_put_other _ _ _ _ hkk] at hk
        rcases hm k hk with ⟨v, hv, hvne⟩
        exact ⟨v, by rw [alistGet_put_other _ _ _ _ hkk]; exact hv, hvne⟩
  · intro k hk
    rw [alistGet_nil] at hk
    simp at hk

theorem stage06Maps_nodup (cat : List ConceptRec) :
    ((stage06Maps cat).1.map Prod.fst).Nodup
    ∧ ((stage06Maps cat).2.2.map Prod.fst).Nodup := by
  unfold stage06Maps
  refine @foldl_preserve
    (List (String × String) × List (String × List String) × List (String × String))
    ConceptRec
    (fun m => (m.1.map Prod.fst).Nodup ∧ (m.2.2.map Prod.fst).Nodup) _
    ?_ cat ([], [], []) ⟨by simp, by simp⟩
  intro m row hm
  dsimp only
  split
  · exact hm
  · exact ⟨alistPut_keys_nodup _ _ _ hm.1, alistPut_keys_nodup _ _ _ hm.2⟩

theorem invertKgToCui_values (l : List (String × String)) :
    ∀ cui kg, alistGet (invertKgToCui l) cui = some kg → kg ∈ l.map Prod.fst := by
  unfold invertKgToCui
  refine @foldl_preserve_mem (List (String × String)) (String × String)
    (fun a => ∀ cui kg, alistGet a cui = some kg → kg ∈ l.map Prod.fst) _ l ?_ [] ?_
  · intro a p hp ha cui kg hg
    by_cases hc : cui = p.2
    · subst hc
      rw [alistGet_put_self] at hg
      cases hg
      exact List.mem_map.mpr ⟨p, hp, rfl⟩
    · rw [alistGet_put_other _ _ _ _ hc] at hg
      exact ha cui kg hg
  · intro cui kg hg
    rw [alistGet_nil] at hg
    cases hg

theorem stage06BaseSets_keys (cat : List ConceptRec) (mrconso2 : List (List String))
    (G : String → Prop)
    (hG : ∀ k, k ∈ (stage06Maps cat).1.map Prod.fst → G k)
    (hcan : ∀ p ∈ (stage06Maps cat).2.2, p.2 ≠ "" → G p.1) :
    ∀ k, (alistGet (stage06BaseSets cat mrconso2) k).isSome → G k := by
  unfold stage06BaseSets
  have h0 : ∀ k, (alistGet ((stage06Maps cat).1.map
      (fun p => (p.1, ([] : List String)))) k).isSome → G k := by
    intro k hk
    rw [alistGet_isSome_iff, List.map_map] at hk
    exact hG k hk
  have h1 : ∀ k, (alistGet (mrconso2.foldl
      (stage06MrconsoStep (invertKgToCui (stage06Maps cat).1))
      ((stage06Maps cat).1.map (fun p => (p.1, [])))) k).isSome → G k := by
    refine @foldl_preserve (List (String × List String)) (List String)
      (fun bs => ∀ k, (alistGet bs k).isSome → G k) _ ?_ mrconso2 _ h0
    intro bs fields hbs
    unfold stage06MrconsoStep
    split
    · exact hbs
    · dsimp only
      split
      · exact hbs
      · split
        · exact hbs
        · rename_i kgId hkg
          intro k hk
          rw [alistGet_isSome_iff] at hk
          rcases multiAdd_keys_sub _ _ _ k hk with h | h
          · subst h
            exact hG k (List.mem_map.mp
              (by exact invertKgToCui_values _ _ _ hkg) |>.elim
              (fun p hp => List.mem_map.mpr ⟨p, hp.1, hp.2⟩))
          · exact hbs k ((alistGet_isSome_iff _ _).mpr h)
  refine @foldl_preserve_mem (List (String × List String)) (String × String)
    (fun bs => ∀ k, (alistGet bs k).isSome → G k) _ (stage06Maps cat).2.2 ?_ _ h1
  intro bs p hp hbs
  split
  · rename_i hpne
    intro k hk
    rw [alistGet_isSome_iff] at hk
    rcases multiAdd_keys_sub _ _ _ k hk with h | h
    · subst h
      exact hcan p hp hpne
    · exact hbs k ((alistGet_isSome_iff _ _).mpr h)
  · exact hbs

theorem stage06BaseSets_canonical_mem (cat : List ConceptRec)
    (mrconso2 : List (List String)) :
    ∀ p ∈ (stage06Maps cat).2.2, p.2 ≠ "" →
      p.2 ∈ (alistGet (stage06BaseSets cat mrconso2) p.1).getD [] := by
  intro p hp hpne
  unfold stage06BaseSets
  refine @foldl_establishes (List (String × List String)) (String × String)
    (fun bs q => if q.2 ≠ "" then multiAdd bs q.1 q.2 else bs)
    (fun q bs => q.2 ≠ "" → q.2 ∈ (alistGet bs q.1).getD []) ?_ ?_
    (stage06Maps cat).2.2 _ p hp hpne
  · intro bs q x hx hne
    dsimp only
    split
    · exact multiAdd_mono _ _ (hx hne)
    · exact hx hne
  · intro bs q hne
    dsimp only
    rw [if_pos hne]
    exact multiAdd_get_self _ _ _

theorem stage06BaseSets_nodup (cat : List ConceptRec)
    (mrconso2 : List (List String)) :
    ((stage06BaseSets cat mrconso2).map Prod.fst).Nodup := by
  unfold stage06BaseSets
  have h0 : (((stage06Maps cat).1.map
      (fun p => (p.1, ([] : List String)))).map Prod.fst).Nodup := by
    rw [List.map_map]
    exact (stage06Maps_nodup cat).1
  have h1 : ((mrconso2.foldl
      (stage06MrconsoStep (invertKgToCui (stage06Maps cat).1))
      ((stage06Maps cat).1.map (fun p => (p.1, [])))).map Prod.fst).Nodup := by
    refine @foldl_preserve (List (String × List String)) (List String)
      (fun bs => (bs.map Prod.fst).Nodup) _ ?_ mrconso2 _ h0
    intro bs fields hbs
    unfold stage06MrconsoStep
    split
    · exact hbs
    · dsimp only
      split
      · exact hbs
      · split
        · exact hbs
        · exact multiAdd_keys_nodup _ _ _ hbs
  refine @foldl_preserve (List (String × List String)) (String × String)
    (fun bs => (bs.map Prod.fst).Nodup) _ ?_ (stage06Maps cat).2.2 _ h1
  intro bs p hbs
  split
  · exact multiAdd_keys_nodup _ _ _ hbs
  · exact hbs

/-- Stage 06 joint property: every overlay binding has a base binding
under the same key whose surfaces are disjoint from it, provided every
catalog record has a nonempty stripped canonical name (true of stage-01
catalogs). -/
theorem stage06_props (cat : List ConceptRec) (mrconso2 : List (List String))
    (hcanon : ∀ c ∈ cat, pyStrip c.canonical_name ≠ "") :
    ∀ k os, alistGet (stage06 cat mrconso2).2 k = some os →
      ∃ bs, alistGet (stage06 cat mrconso2).1 k = some bs ∧ ∀ s ∈ os, s ∉ bs := by
  have hgood : ∀ k ∈ sortStr ((stage06BaseSets cat mrconso2).map (fun p => p.1)),
      sortCF ((alistGet (stage06BaseSets cat mrconso2) k).getD []) ≠ [] := by
    intro k hk
    have hk2 : k ∈ (stage06BaseSets cat mrconso2).map Prod.fst := mem_sortOrd.mp hk
    have hsome : (alistGet (stage06BaseSets cat mrconso2) k).isSome :=
      (alistGet_isSome_iff _ _).mpr hk2
    have hGk : ∃ v, alistGet (stage06Maps cat).2.2 k = some v ∧ v ≠ "" := by
      refine stage06BaseSets_keys cat mrconso2
        (fun k2 => ∃ v, alistGet (stage06Maps cat).2.2 k2 = some v ∧ v ≠ "") ?_ ?_
        k hsome
      · intro k2 hk2m
        exact stage06Maps_canonical cat hcanon k2 ((alistGet_isSome_iff _ _).mpr hk2m)
      · intro p hp hpne
        exact ⟨p.2, alistGet_mem_of_nodup (stage06Maps_nodup cat).2 (by
          rcases p with ⟨a, b⟩
          exact hp), hpne⟩
    rcases hGk with ⟨v, hv, hvne⟩
    have hvmem : v ∈ (alistGet (stage06BaseSets cat mrconso2) k).getD [] := by
      have hpmem := alistGet_eq_some_mem hv
      exact stage06BaseSets_canonical_mem cat mrconso2 (k, v) hpmem hvne
    intro hnil
    have hmem2 : v ∈ sortCF ((alistGet (stage06BaseSets cat mrconso2) k).getD []) :=
      mem_sortOrd.mpr hvmem
    rw [hnil] at hmem2
    simp at hmem2
  have hndks : (sortStr ((stage06BaseSets cat mrconso2).map (fun p => p.1))).Nodup :=
    sortOrd_nodup _ (stage06BaseSets_nodup cat mrconso2)
  intro k os h
  exact outFold_inv (stage06BaseSets cat mrconso2) (stage06Maps cat).2.1 _
    hndks hgood ([], [])
    (by intro k2 os2 h2; rw [alistGet_nil] at h2; cases h2)
    (by intro k2 _ hmem; simp at hmem)
    (by intro k2 _ hmem; simp at hmem)
    k os h

/-- C6: for the dictionaries emitted by stage 06 on a stage-01 catalog,
every overlay key is also a base-dict key, and for every key the overlay
surfaces are disjoint from the base surfaces. -/
theorem c6_overlay_subset_disjoint
    (mrsty mrconso rxn drugbank mesh mrconso2 : List (List String)) :
    (∀ k ∈ (stage06 (buildCatalog mrsty mrconso rxn drugbank mesh) mrconso2).2.map
        Prod.fst,
      k ∈ (stage06 (buildCatalog mrsty mrconso rxn drugbank mesh) mrconso2).1.map
        Prod.fst)
    ∧ (∀ k os bs s,
        alistGet (stage06 (buildCatalog mrsty mrconso rxn drugbank mesh) mrconso2).2
          k = some os →
        alistGet (stage06 (buildCatalog mrsty mrconso rxn drugbank mesh) mrconso2).1
          k = some bs →
        s ∈ os → s ∉ bs) := by
  have hcanon : ∀ c ∈ buildCatalog mrsty mrconso rxn drugbank mesh,
      pyStrip c.canonical_name ≠ "" := by
    intro c hc
    rcases canonNE_buildCatalog mrsty mrconso rxn drugbank mesh c hc with ⟨hfix, hne⟩
    rw [hfix]
    exact hne
  have hmain := stage06_props (buildCatalog mrsty mrconso rxn drugbank mesh)
    mrconso2 hcanon
  constructor
  · intro k hk
    have hsome := (alistGet_isSome_iff _ k).mpr hk
    cases hg : alistGet (stage06 (buildCatalog mrsty mrconso rxn drugbank mesh)
        mrconso2).2 k with
    | none => rw [hg] at hsome; simp at hsome
    | some os =>
      rcases hmain k os hg with ⟨bs, hbs, _⟩
      exact (alistGet_isSome_iff _ k).mp (by rw [hbs]; rfl)
  · intro k os bs s hos hbs hmem
    rcases hmain k os hos with ⟨bs2, hbs2, hdisj⟩
    rw [hbs] at hbs2
    cases hbs2
    exact hdisj s hmem

def c6Mrsty : List (List String) := [["C1", "T109", "", ""]]

def c6Mrconso : List (List String) := [mkConsoRow "C1" "N" "Aspirin"]

def c6Rxn : List (List String) :=
  [["", "", "", "", "", "", "", "", "", "", "", "RXNORM", "IN", "", "ASPIRIN"]]

/-- C6 witness: a build whose RxNorm enrichment adds the overlay-only
synonym "ASPIRIN" to drug_aspirin; the overlay key is a base key and the
overlay surface is not among the base surfaces. -/
theorem c6_overlay_subset_disjoint_witness :
    "drug_aspirin" ∈ (stage06 (buildCatalog c6Mrsty c6Mrconso c6Rxn [] [])
        c6Mrconso).1.map Prod.fst
    ∧ "ASPIRIN" ∉ (["Aspirin"] : List String) :=
  ⟨(c6_overlay_subset_disjoint c6Mrsty c6Mrconso c6Rxn [] [] c6Mrconso).1
      "drug_aspirin" (by decide),
   (c6_overlay_subset_disjoint c6Mrsty c6Mrconso c6Rxn [] [] c6Mrconso).2
      "drug_aspirin" ["ASPIRIN"] ["Aspirin"] "ASPIRIN"
      (by decide) (by decide) (by decide)⟩

/-! ## Claim C4 — edge endpoints are catalog kg_ids -/

theorem dropWhile_head_false {α : Type} {q : α → Bool} :
    ∀ {l : List α} {c : α} {t : List α}, List.dropWhile q l = c :: t → q c = false
  | [], _, _, h => by simp [List.dropWhile] at h
  | a :: as, c, t, h => by
    by_cases ha : q a = true
    · rw [List.dropWhile_cons_of_pos ha] at h
      exact dropWhile_head_false h
    · rw [List.dropWhile_cons_of_neg ha] at h
      cases h
      exact Bool.eq_false_iff.mpr ha

theorem dropWhile_eq_self_of_head {α : Type} {q : α → Bool} {l : List α}
    (h : ∀ c t, l = c :: t → q c = false) : List.dropWhile q l = l := by
  cases l with
  | nil => rfl
  | cons c t => exact List.dropWhile_cons_of_neg (by simp [h c t rfl])

theorem stripChars_eq_self {l : List Char}
    (hhead : ∀ c t, l = c :: t → pyIsSpace c = false)
    (hlast : ∀ c, l.getLast? = some c → pyIsSpace c = false) :
    stripChars l = l := by
  unfold stripChars
  rw [dropWhile_eq_self_of_head hhead]
  rw [dropWhile_eq_self_of_head (fun c t hc => ?_), List.reverse_reverse]
  have : l.reverse.head? = some c := by rw [hc]; rfl
  rw [List.head?_reverse] at this
  exact hlast c this

theorem mem_subNonAlnumAux {c : Char} :
    ∀ {b : Bool} {l : List Char}, c ∈ subNonAlnumAux b l →
      isAlnumLower c = true ∨ c = '_'
  | b, [], h => by simp [subNonAlnumAux] at h
  | b, a :: as, h => by
    simp only [subNonAlnumAux] at h
    by_cases ha : isAlnumLower a = true
    · rw [if_pos ha] at h
      rcases List.mem_cons.mp h with h | h
      · exact Or.inl (h ▸ ha)
      · exact mem_subNonAlnumAux h
    · rw [if_neg ha] at h
      by_cases hb : b = true
      · rw [if_pos hb] at h
        exact mem_subNonAlnumAux h
      · rw [if_neg hb] at h
        rcases List.mem_cons.mp h with h | h
        · exact Or.inr h
        · exact mem_subNonAlnumAux h

theorem mem_collapseUnderAux {c : Char} :
    ∀ {b : Bool} {l : List Char}, c ∈ collapseUnderAux b l → c ∈ l ∨ c = '_'
  | b, [], h => by simp [collapseUnderAux] at h
  | b, a :: as, h => by
    simp only [collapseUnderAux] at h
    by_cases ha : a = '_'
    · rw [if_pos ha] at h
      by_cases hb : b = true
      · rw [if_pos hb] at h
        rcases mem_collapseUnderAux h with h | h
        · exact Or.inl (List.mem_cons_of_mem _ h)
        · exact Or.inr h
      · rw [if_neg hb] at h
        rcases List.mem_cons.mp h with h | h
        · exact Or.inr h
        · rcases mem_collapseUnderAux h with h | h
          · exact Or.inl (List.mem_cons_of_mem _ h)
          · exact Or.inr h
    · rw [if_neg ha] at h
      rcases List.mem_cons.mp h with h | h
      · exact Or.inl (h ▸ List.mem_cons_self _ _)
      · rcases mem_collapseUnderAux h with h | h
        · exact Or.inl (List.mem_cons_of_mem _ h)
        · exact Or.inr h

theorem isAlnumLower_not_space {c : Char} (h : isAlnumLower c = true) :
    pyIsSpace c = false := by
  cases hs : pyIsSpace c with
  | false => rfl
  | true =>
    simp only [pyIsSpace, Bool.or_eq_true, decide_eq_true_eq] at hs
    rcases hs with ((((rfl | rfl) | rfl) | rfl) | rfl) | rfl <;>
      simp [isAlnumLower] at h

theorem slugify_ne_nil (s : String) : (slugify s).data ≠ [] := by
  unfold slugify
  dsimp only
  split
  · simp
  · rename_i hne
    simpa using hne

theorem slugify_last_not_space (s : String) :
    ∀ c, (slugify s).data.getLast? = some c → pyIsSpace c = false := by
  intro c hc
  unfold slugify at hc
  dsimp only at hc
  split at hc
  · simp only [String.data] at hc
    have hcn : 'n' = c := by simpa using hc
    rw [← hcn]
    rfl
  · simp only [String.data] at hc
    set l3 := stripUnders (collapseUnder (subNonAlnum
      (collapseWS (pyLower (pyStrip s)).data))) with hl3
    have hlast : l3.getLast? = some c := hc
    have hne : c ≠ '_' := by
      have hh : l3.reverse.head? = some c := by
        rw [List.head?_reverse]
        exact hlast
      rw [hl3] at hh
      unfold stripUnders at hh
      rw [List.reverse_reverse] at hh
      cases hdw : List.dropWhile (fun c => c = '_')
          ((collapseUnder (subNonAlnum (collapseWS (pyLower (pyStrip s)).data))).dropWhile
            (fun c => c = '_')).reverse with
      | nil => rw [hdw] at hh; simp at hh
      | cons a t =>
        rw [hdw] at hh
        simp only [List.head?_cons, Option.some_inj] at hh
        have hfalse := dropWhile_head_false hdw
        intro hcu
        rw [hh, hcu] at hfalse
        simp at hfalse
    have hmem : c ∈ l3 := List.mem_of_mem_getLast? (Option.mem_def.mpr hlast)
    have hmem2 : c ∈ collapseUnder (subNonAlnum
        (collapseWS (pyLower (pyStrip s)).data)) := by
      rw [hl3] at hmem
      unfold stripUnders at hmem
      have h1 := List.mem_reverse.mp hmem
      have h2 := (List.dropWhile_sublist _).mem h1
      have h3 := List.mem_reverse.mp h2
      exact (List.dropWhile_sublist _).mem h3
    rcases mem_collapseUnderAux hmem2 with h | h
    · rcases mem_subNonAlnumAux h with h | h
      · exact isAlnumLower_not_space h
      · exact absurd h hne
    · exact absurd h hne

theorem infer_entity_type_cases (tuis : List String) :
    infer_entity_type tuis = "drug" ∨ infer_entity_type tuis = "disease"
    ∨ infer_entity_type tuis = "chemical" ∨ infer_entity_type tuis = "gene"
    ∨ infer_entity_type tuis = "entity" := by
  unfold infer_entity_type
  split
  · exact Or.inl rfl
  · split
    · exact Or.inr (Or.inl rfl)
    · split
      · exact Or.inr (Or.inr (Or.inl rfl))
      · split
        · exact Or.inr (Or.inr (Or.inr (Or.inl rfl)))
        · exact Or.inr (Or.inr (Or.inr (Or.inr rfl)))

theorem kg_id_for_strip_fix (cui text ty : String)
    (hty : ty = "drug" ∨ ty = "disease" ∨ ty = "chemical" ∨ ty = "gene") :
    pyStrip (kg_id_for cui text ty) = kg_id_for cui text ty := by
  have hk : kg_id_for cui text ty = ty ++ "_" ++ slugify text := by
    unfold kg_id_for
    rw [if_pos hty]
  rw [hk]
  show (⟨stripChars (ty ++ "_" ++ slugify text).data⟩ : String) = _
  have hdata : (ty ++ "_" ++ slugify text).data =
      (ty.data ++ ['_']) ++ (slugify text).data := rfl
  rw [hdata]
  rw [stripChars_eq_self ?hh ?hl]
  · rw [← hdata]
  case hh =>
    intro c t hct
    rcases hty with rfl | rfl | rfl | rfl <;>
      (injection hct with h1 h2; rw [← h1]; rfl)
  case hl =>
    intro c hct
    rw [List.getLast?_append_of_ne_nil _ (slugify_ne_nil text)] at hct
    exact slugify_last_not_space text c hct

/-- Invariant: every record's kg_id is unchanged by stripping (catalog
kg_ids are a type prefix plus a slug). -/
def KgFix (cat : List ConceptRec) : Prop :=
  ∀ c ∈ cat, pyStrip c.kg_id = c.kg_id

theorem kgFix_mrconsoStep (tuis : List (String × List String)) (st : CatState)
    (fields : List String) (h : KgFix st.catalog) :
    KgFix (mrconsoStep tuis st fields).catalog := by
  unfold mrconsoStep
  split
  · exact h
  · dsimp only
    split
    · exact h
    · split
      · exact h
      · split
        · exact h
        · rename_i hety
          split
          · split
            · exact h
            · intro c hc
              rcases mem_updateConcept hc with hc | ⟨d, hd, rfl⟩
              · exact h c hc
              · exact h d hd
          · intro c hc
            rcases mem_putConcept hc with hc | rfl
            · exact h c hc
            · dsimp only
              rcases infer_entity_type_cases
                  ((alistGet tuis (pyUpper (pyStrip (fields.getD 0 "")))).getD [])
                with ht | ht | ht | ht | ht
              all_goals rw [ht]
              · exact kg_id_for_strip_fix _ _ _ (Or.inl rfl)
              · exact kg_id_for_strip_fix _ _ _ (Or.inr (Or.inl rfl))
              · exact kg_id_for_strip_fix _ _ _ (Or.inr (Or.inr (Or.inl rfl)))
              · exact kg_id_for_strip_fix _ _ _ (Or.inr (Or.inr (Or.inr rfl)))
              · rw [ht] at hety
                simp at hety

theorem kgFix_addSynonym (cat : List ConceptRec)
    (byNorm : List (String × List String)) (k v src : String)
    (h : KgFix cat) : KgFix (addSynonym cat byNorm k v src).1 := by
  unfold addSynonym
  dsimp only
  split
  · exact h
  · split
    · exact h
    · split
      · exact h
      · split
        · exact h
        · intro c hc
          rcases mem_updateConcept hc with hc | ⟨d, hd, rfl⟩
          · exact h c hc
          · exact h d hd

theorem kgFix_enrichName (byNorm : List (String × List String))
    (etype source : String) (cat : List ConceptRec) (name : String)
    (h : KgFix cat) : KgFix (enrichName byNorm etype source cat name) := by
  unfold enrichName
  refine foldl_preserve ?_ _ cat h
  intro acc kgId hacc
  split
  · split
    · exact kgFix_addSynonym _ _ _ _ _ hacc
    · exact hacc
  · exact hacc

theorem kgFix_buildCatalog (mrsty mrconso rxn drugbank mesh : List (List String)) :
    KgFix (buildCatalog mrsty mrconso rxn drugbank mesh) := by
  have hst : KgFix (catalogAfterMrconso (buildCuiTuis mrsty) mrconso).catalog := by
    unfold catalogAfterMrconso
    refine @foldl_preserve CatState (List String)
      (fun st => KgFix st.catalog) (mrconsoStep (buildCuiTuis mrsty))
      ?_ mrconso ⟨[], [], []⟩ ?_
    · intro a b ha
      exact kgFix_mrconsoStep _ a b ha
    · intro x hx
      simp at hx
  set byNorm := buildByNorm (catalogAfterMrconso (buildCuiTuis mrsty) mrconso).catalog
  have h1 : KgFix (rxn.foldl (rxnormStep byNorm)
      (catalogAfterMrconso (buildCuiTuis mrsty) mrconso).catalog) := by
    refine foldl_preserve ?_ rxn _ hst
    intro a b ha
    unfold rxnormStep
    split
    · exact ha
    · dsimp only
      split
      · exact ha
      · exact kgFix_enrichName _ _ _ _ _ ha
  have h2 : KgFix (drugbank.foldl (drugbankStep byNorm)
      (rxn.foldl (rxnormStep byNorm)
        (catalogAfterMrconso (buildCuiTuis mrsty) mrconso).catalog)) := by
    refine foldl_preserve ?_ drugbank _ h1
    intro a b ha
    exact foldl_preserve (fun x y hx => kgFix_enrichName _ _ _ _ _ hx) b a ha
  have h3 : KgFix (mesh.foldl (meshStep byNorm)
      (drugbank.foldl (drugbankStep byNorm)
        (rxn.foldl (rxnormStep byNorm)
          (catalogAfterMrconso (buildCuiTuis mrsty) mrconso).catalog))) := by
    refine foldl_preserve ?_ mesh _ h2
    intro a b ha
    exact foldl_preserve (fun x y hx => kgFix_enrichName _ _ _ _ _ hx) b a ha
  intro c hc
  have hc2 : c ∈ emitCatalog (mesh.foldl (meshStep byNorm)
      (drugbank.foldl (drugbankStep byNorm)
        (rxn.foldl (rxnormStep byNorm)
          (catalogAfterMrconso (buildCuiTuis mrsty) mrconso).catalog))) := hc
  unfold emitCatalog at hc2
  rcases List.mem_map.mp hc2 with ⟨d, hd, rfl⟩
  exact h3 d (mem_sortOrd.mp hd)

theorem mem_addSet_cases {l : List String} {x y : String} (h : x ∈ addSet l y) :
    x ∈ l ∨ x = y := by
  unfold addSet at h
  by_cases hy : y ∈ l
  · rw [if_pos hy] at h
    exact Or.inl h
  · rw [if_neg hy] at h
    rcases List.mem_append.mp h with h | h
    · exact Or.inl h
    · exact Or.inr (List.mem_singleton.mp h)

theorem multiAdd_values {bs : List (String × List String)} {k v k2 : String}
    {hits : List String} {x : String}
    (h : alistGet (multiAdd bs k v) k2 = some hits) (hx : x ∈ hits) :
    x = v ∨ ∃ hits0, alistGet bs k2 = some hits0 ∧ x ∈ hits0 := by
  unfold multiAdd at h
  cases hg : alistGet bs k with
  | some vs =>
    rw [hg] at h
    by_cases hk : k2 = k
    · subst hk
      rw [alistGet_put_self] at h
      cases h
      rcases mem_addSet_cases hx with hx | hx
      · exact Or.inr ⟨vs, hg, hx⟩
      · exact Or.inl hx
    · rw [alistGet_put_other _ _ _ _ hk] at h
      exact Or.inr ⟨hits, h, hx⟩
  | none =>
    rw [hg] at h
    cases hg2 : alistGet bs k2 with
    | some vs2 =>
      rw [alistGet_append_some _ hg2] at h
      injection h with h
      subst h
      exact Or.inr ⟨vs2, rfl, hx⟩
    | none =>
      rw [alistGet_append_none _ hg2, alistGet_cons] at h
      by_cases hk : k = k2
      · rw [if_pos hk] at h
        cases h
        simp only [List.mem_singleton] at hx
        exact Or.inl hx
      · rw [if_neg hk] at h
        cases h

theorem loadTypeMap_values (cat : List ConceptRec) :
    ∀ cui kg, alistGet (loadTypeMap cat).1 cui = some kg →
      kg ∈ cat.map (fun c => c.kg_id) := by
  unfold loadTypeMap
  refine @foldl_preserve_mem (List (String × String) × List (String × String))
    ConceptRec
    (fun m => ∀ cui kg, alistGet m.1 cui = some kg → kg ∈ cat.map (fun c => c.kg_id))
    _ cat ?_ ([], []) ?_
  · intro m c hc hm cui kg hg
    dsimp only at hg
    split at hg
    · dsimp only at hg
      by_cases hcui : cui = pyUpper c.cui
      · subst hcui
        rw [alistGet_put_self] at hg
        cases hg
        exact List.mem_map.mpr ⟨c, hc, rfl⟩
      · rw [alistGet_put_other _ _ _ _ hcui] at hg
        exact hm cui kg hg
    · exact hm cui kg hg
  · intro cui kg hg
    rw [alistGet_nil] at hg
    cases hg

theorem buildSurfaceIdx_values (cat : List ConceptRec) :
    (∀ n hits kg, alistGet (buildSurfaceIdx cat).1 n = some hits → kg ∈ hits →
      kg ∈ cat.map (fun c => c.kg_id))
    ∧ (∀ n hits kg, alistGet (buildSurfaceIdx cat).2 n = some hits → kg ∈ hits →
      kg ∈ cat.map (fun c => c.kg_id)) := by
  unfold buildSurfaceIdx
  refine @foldl_preserve_mem
    (List (String × List String) × List (String × List String)) ConceptRec
    (fun m =>
      (∀ n hits kg, alistGet m.1 n = some hits → kg ∈ hits →
        kg ∈ cat.map (fun c => c.kg_id))
      ∧ (∀ n hits kg, alistGet m.2 n = some hits → kg ∈ hits →
        kg ∈ cat.map (fun c => c.kg_id)))
    _ cat ?_ ([], []) ?_
  · intro m c hc hm
    refine @foldl_preserve
      (List (String × List String) × List (String × List String)) String
      (fun m2 =>
        (∀ n hits kg, alistGet m2.1 n = some hits → kg ∈ hits →
          kg ∈ cat.map (fun c => c.kg_id))
        ∧ (∀ n hits kg, alistGet m2.2 n = some hits → kg ∈ hits →
          kg ∈ cat.map (fun c => c.kg_id)))
      _ ?_ c.synonyms m hm
    intro m2 s hm2
    dsimp only
    split
    · constructor
      · intro n hits kg hg hk
        rcases multiAdd_values hg hk with h | ⟨hits0, hg0, hk0⟩
        · exact h ▸ List.mem_map.mpr ⟨c, hc, rfl⟩
        · exact hm2.1 n hits0 kg hg0 hk0
      · exact hm2.2
    · split
      · constructor
        · exact hm2.1
        · intro n hits kg hg hk
          rcases multiAdd_values hg hk with h | ⟨hits0, hg0, hk0⟩
          · exact h ▸ List.mem_map.mpr ⟨c, hc, rfl⟩
          · exact hm2.2 n hits0 kg hg0 hk0
      · exact hm2
  · constructor <;>
      (intro n hits kg hg; rw [alistGet_nil] at hg; cases hg)

theorem surfaceIdx_getD_drug (cat : List ConceptRec) (n kg : String)
    (h : kg ∈ (alistGet (buildSurfaceIdx cat).1 n).getD []) :
    kg ∈ cat.map (fun c => c.kg_id) := by
  cases hg : alistGet (buildSurfaceIdx cat).1 n with
  | some hits =>
    rw [hg] at h
    exact (buildSurfaceIdx_values cat).1 n hits kg hg h
  | none =>
    rw [hg] at h
    simp at h

theorem surfaceIdx_getD_disease (cat : List ConceptRec) (n kg : String)
    (h : kg ∈ (alistGet (buildSurfaceIdx cat).2 n).getD []) :
    kg ∈ cat.map (fun c => c.kg_id) := by
  cases hg : alistGet (buildSurfaceIdx cat).2 n with
  | some hits =>
    rw [hg] at h
    exact (buildSurfaceIdx_values cat).2 n hits kg hg h
  | none =>
    rw [hg] at h
    simp at h

theorem pairG_rows (rel src ev : String) (score : DecNum) :
    ∀ (es : List String) (a : EdgeAcc) (d : String),
      ∀ edge ∈ (pairG rel src ev score es a d).rows,
        edge ∈ a.rows ∨ (edge.h = d ∧ edge.r = rel ∧ edge.t ∈ es) := by
  intro es
  induction es with
  | nil =>
    intro a d edge he
    exact Or.inl he
  | cons e rest ih =>
    intro a d edge he
    have he2 : edge ∈ (pairG rel src ev score rest
        (if keySeen a.seen (d, rel, e) then a
         else ⟨a.seen ++ [(d, rel, e)], a.rows ++ [⟨d, rel, e, src, score, ev⟩]⟩)
        d).rows := he
    rcases ih _ d edge he2 with h | ⟨h1, h2, h3⟩
    · by_cases hs : keySeen a.seen (d, rel, e) = true
      · rw [if_pos hs] at h
        exact Or.inl h
      · rw [if_neg hs] at h
        dsimp only at h
        rcases List.mem_append.mp h with h | h
        · exact Or.inl h
        · rw [List.mem_singleton.mp h]
          exact Or.inr ⟨rfl, rfl, List.mem_cons_self _ _⟩
    · exact Or.inr ⟨h1, h2, List.mem_cons_of_mem _ h3⟩

theorem pairFold_rows (rel src ev : String) (score : DecNum) :
    ∀ (ds es : List String) (acc : EdgeAcc),
      ∀ edge ∈ (ds.foldl (pairG rel src ev score es) acc).rows,
        edge ∈ acc.rows ∨ (edge.h ∈ ds ∧ edge.r = rel ∧ edge.t ∈ es)
  | [], _, _, _, he => Or.inl he
  | d :: rest, es, acc, edge, he => by
    rw [List.foldl_cons] at he
    rcases pairFold_rows rel src ev score rest es _ edge he with h | ⟨h1, h2, h3⟩
    · rcases pairG_rows rel src ev score es acc d edge h with h | ⟨h1, h2, h3⟩
      · exact Or.inl h
      · exact Or.inr ⟨h1 ▸ List.mem_cons_self _ _, h2, h3⟩
    · exact Or.inr ⟨List.mem_cons_of_mem _ h1, h2, h3⟩

theorem edgesUmls_endpoints (cat : List ConceptRec) (mrrel : List (List String)) :
    ∀ e ∈ edgesUmls cat mrrel,
      e.h ∈ cat.map (fun c => c.kg_id) ∧ e.t ∈ cat.map (fun c => c.kg_id) := by
  unfold edgesUmls
  refine @foldl_preserve EdgeAcc (List String)
    (fun acc => ∀ e ∈ acc.rows,
      e.h ∈ cat.map (fun c => c.kg_id) ∧ e.t ∈ cat.map (fun c => c.kg_id))
    _ ?_ mrrel ⟨[], []⟩ ?_
  · intro acc fields hacc
    unfold umlsStep
    split
    · exact hacc
    · dsimp only
      split
      · exact hacc
      · split
        · rename_i hval tval heq1 heq2
          split
          · exact hacc
          · split
            · exact hacc
            · split
              · exact hacc
              · split
                · exact hacc
                · intro e he
                  dsimp only at he
                  rcases List.mem_append.mp he with he | he
                  · exact hacc e he
                  · rw [List.mem_singleton.mp he]
                    exact ⟨loadTypeMap_values cat _ hval heq1,
                      loadTypeMap_values cat _ tval heq2⟩
        · exact hacc
  · intro e he
    cases he

theorem edgesSider_endpoints (cat : List ConceptRec)
    (dn meddra : List (List String)) :
    ∀ e ∈ edgesSider cat dn meddra,
      e.h ∈ cat.map (fun c => c.kg_id) ∧ e.t ∈ cat.map (fun c => c.kg_id) := by
  unfold edgesSider
  refine @foldl_preserve EdgeAcc (List String)
    (fun acc => ∀ e ∈ acc.rows,
      e.h ∈ cat.map (fun c => c.kg_id) ∧ e.t ∈ cat.map (fun c => c.kg_id))
    _ ?_ meddra ⟨[], []⟩ ?_
  · intro acc fields hacc
    unfold siderStep
    split
    · exact hacc
    · dsimp only
      split
      · split
        · exact hacc
        · split
          · exact hacc
          · split
            · exact hacc
            · intro e he
              rcases pairFold_rows "ADVERSE_EFFECT" "SIDER" _ _ _ _ acc e he
                with h | ⟨h1, _, h3⟩
              · exact hacc e h
              · exact ⟨surfaceIdx_getD_drug cat _ e.h (mem_sortOrd.mp h1),
                  surfaceIdx_getD_disease cat _ e.t (mem_sortOrd.mp h3)⟩
      · split
        · exact hacc
        · split
          · exact hacc
          · split
            · exact hacc
            · intro e he
              rcases pairFold_rows "ADVERSE_EFFECT" "SIDER" _ _ _ _ acc e he
                with h | ⟨h1, _, h3⟩
              · exact hacc e h
              · exact ⟨surfaceIdx_getD_drug cat _ e.h (mem_sortOrd.mp h1),
                  surfaceIdx_getD_disease cat _ e.t (mem_sortOrd.mp h3)⟩
  · intro e he
    cases he

theorem edgesCtd_endpoints (cat : List ConceptRec) (ctd : List (List String)) :
    ∀ e ∈ edgesCtd cat ctd,
      e.h ∈ cat.map (fun c => c.kg_id) ∧ e.t ∈ cat.map (fun c => c.kg_id) := by
  unfold edgesCtd
  refine @foldl_preserve EdgeAcc (List String)
    (fun acc => ∀ e ∈ acc.rows,
      e.h ∈ cat.map (fun c => c.kg_id) ∧ e.t ∈ cat.map (fun c => c.kg_id))
    _ ?_ ctd ⟨[], []⟩ ?_
  · intro acc row hacc
    unfold ctdStep
    split
    · exact hacc
    · split
      · exact hacc
      · split
        · exact hacc
        · split
          · exact hacc
          · dsimp only
            split
            · exact hacc
            · split
              · exact hacc
              · intro e he
                rcases pairFold_rows _ "CTD" _ _ _ _ acc e he
                  with h | ⟨h1, _, h3⟩
                · exact hacc e h
                · exact ⟨surfaceIdx_getD_drug cat _ e.h (mem_sortOrd.mp h1),
                    surfaceIdx_getD_disease cat _ e.t (mem_sortOrd.mp h3)⟩
  · intro e he
    cases he

theorem mergedGet_cons (p : (String × String × String) × MAcc)
    (ps : List ((String × String × String) × MAcc))
    (k : String × String × String) :
    mergedGet (p :: ps) k = if p.1 = k then some p.2 else mergedGet ps k := by
  unfold mergedGet
  by_cases h : p.1 = k
  · rw [List.find?_cons_of_pos _ (by simp [h]), if_pos h]
  · rw [List.find?_cons_of_neg _ (by simp [h]), if_neg h]

theorem mergedGet_mem :
    ∀ {m : List ((String × String × String) × MAcc)}
      {k : String × String × String} {v : MAcc},
      mergedGet m k = some v → (k, v) ∈ m := by
  intro m
  induction m with
  | nil =>
    intro k v h
    unfold mergedGet at h
    simp [List.find?] at h
  | cons p ps ih =>
    intro k v h
    rw [mergedGet_cons] at h
    by_cases hk : p.1 = k
    · rw [if_pos hk] at h
      injection h with h
      have hp : (k, v) = p := by
        rw [← hk, ← h]
      rw [hp]
      exact List.mem_cons_self _ _
    · rw [if_neg hk] at h
      exact List.mem_cons_of_mem _ (ih h)

theorem mem_mergedPut {k : String × String × String} {v : MAcc} :
    ∀ {m : List ((String × String × String) × MAcc)}
      {x : (String × String × String) × MAcc},
      x ∈ mergedPut m k v → x ∈ m ∨ x = (k, v) := by
  intro m
  induction m with
  | nil =>
    intro x hx
    unfold mergedPut at hx
    exact Or.inr (List.mem_singleton.mp hx)
  | cons p ps ih =>
    intro x hx
    unfold mergedPut at hx
    by_cases hk : p.1 = k
    · rw [if_pos hk] at hx
      rcases List.mem_cons.mp hx with h | h
      · exact Or.inr h
      · exact Or.inl (List.mem_cons_of_mem _ h)
    · rw [if_neg hk] at hx
      rcases List.mem_cons.mp hx with h | h
      · exact Or.inl (h ▸ List.mem_cons_self _ _)
      · rcases ih h with h2 | h2
        · exact Or.inl (List.mem_cons_of_mem _ h2)
        · exact Or.inr h2

theorem mergeParsed_endpoints (ps : List PRow) :
    ∀ q ∈ mergeParsed ps, ∃ p ∈ ps, p.h = q.2.h ∧ p.t = q.2.t := by
  unfold mergeParsed
  refine @foldl_preserve_mem (List ((String × String × String) × MAcc)) PRow
    (fun m => ∀ q ∈ m, ∃ p ∈ ps, p.h = q.2.h ∧ p.t = q.2.t) mergeStep
    ps ?_ [] ?_
  · intro m row hrow hm q hq
    unfold mergeStep at hq
    dsimp only at hq
    split at hq
    · rcases List.mem_append.mp hq with h | h
      · exact hm q h
      · rw [List.mem_singleton.mp h]
        exact ⟨row, hrow, rfl, rfl⟩
    · rename_i acc heq
      rcases mem_mergedPut hq with h | h
      · exact hm q h
      · subst h
        rcases hm _ (mergedGet_mem heq) with ⟨p, hp, h1, h2⟩
        exact ⟨p, hp, h1, h2⟩
  · intro q hq
    cases hq

theorem emitMerged_endpoints (m : List ((String × String × String) × MAcc)) :
    ∀ r ∈ emitMerged m, ∃ q ∈ m, r.head = q.2.h ∧ r.tail = q.2.t := by
  intro r hr
  unfold emitMerged at hr
  rcases List.mem_map.mp hr with ⟨p, hp, hpr⟩
  exact ⟨p, mem_sortOrd.mp hp, by rw [← hpr], by rw [← hpr]⟩

theorem readStageEdges_origin (es : List Edge) :
    ∀ p ∈ readStageEdges es, ∃ e ∈ es, p.h = pyStrip e.h ∧ p.t = pyStrip e.t := by
  intro p hp
  unfold readStageEdges at hp
  rcases List.mem_filterMap.mp hp with ⟨e, he, hfe⟩
  dsimp only at hfe
  split at hfe
  · cases hfe
  · injection hfe with hfe
    exact ⟨e, he, by rw [← hfe], by rw [← hfe]⟩

theorem mergeStageEdges_endpoints (cat : List ConceptRec) (es : List Edge)
    (hfix : KgFix cat)
    (hes : ∀ e ∈ es,
      e.h ∈ cat.map (fun c => c.kg_id) ∧ e.t ∈ cat.map (fun c => c.kg_id)) :
    ∀ r ∈ mergeStageEdges es,
      r.head ∈ cat.map (fun c => c.kg_id) ∧ r.tail ∈ cat.map (fun c => c.kg_id) := by
  intro r hr
  unfold mergeStageEdges at hr
  rcases emitMerged_endpoints _ r hr with ⟨q, hq, hh, ht⟩
  rcases mergeParsed_endpoints _ q hq with ⟨p, hp, ph, pt⟩
  rcases readStageEdges_origin es p hp with ⟨e, he, eh, et⟩
  rcases hes e he with ⟨heh, het⟩
  constructor
  · rw [hh, ← ph, eh]
    rcases List.mem_map.mp heh with ⟨c, hcm, hck⟩
    rw [← hck, hfix c hcm]
    exact List.mem_map.mpr ⟨c, hcm, rfl⟩
  · rw [ht, ← pt, et]
    rcases List.mem_map.mp het with ⟨c, hcm, hck⟩
    rw [← hck, hfix c hcm]
    exact List.mem_map.mpr ⟨c, hcm, rfl⟩

/-- C4: every edge emitted by stage 02 (UMLS), stage 03 (SIDER) and
stage 04 (CTD) over the catalog produced by stage 01, and every row of
the merged file produced by stage 05 from exactly those per-source
outputs, has both its head and its tail among the kg_id values of that
same catalog. -/
theorem c4_endpoints_in_catalog
    (mrsty mrconso rxn drugbank mesh : List (List String))
    (mrrel dn meddra ctd : List (List String)) :
    (∀ e ∈ edgesUmls (buildCatalog mrsty mrconso rxn drugbank mesh) mrrel
        ++ edgesSider (buildCatalog mrsty mrconso rxn drugbank mesh) dn meddra
        ++ edgesCtd (buildCatalog mrsty mrconso rxn drugbank mesh) ctd,
      e.h ∈ (buildCatalog mrsty mrconso rxn drugbank mesh).map (fun c => c.kg_id)
      ∧ e.t ∈ (buildCatalog mrsty mrconso rxn drugbank mesh).map (fun c => c.kg_id))
    ∧ (∀ r ∈ mergeStageEdges
        (edgesUmls (buildCatalog mrsty mrconso rxn drugbank mesh) mrrel
          ++ edgesSider (buildCatalog mrsty mrconso rxn drugbank mesh) dn meddra
          ++ edgesCtd (buildCatalog mrsty mrconso rxn drugbank mesh) ctd),
      r.head ∈ (buildCatalog mrsty mrconso rxn drugbank mesh).map (fun c => c.kg_id)
      ∧ r.tail ∈ (buildCatalog mrsty mrconso rxn drugbank mesh).map (fun c => c.kg_id)) := by
  have hper : ∀ e ∈ edgesUmls (buildCatalog mrsty mrconso rxn drugbank mesh) mrrel
      ++ edgesSider (buildCatalog mrsty mrconso rxn drugbank mesh) dn meddra
      ++ edgesCtd (buildCatalog mrsty mrconso rxn drugbank mesh) ctd,
      e.h ∈ (buildCatalog mrsty mrconso rxn drugbank mesh).map (fun c => c.kg_id)
      ∧ e.t ∈ (buildCatalog mrsty mrconso rxn drugbank mesh).map (fun c => c.kg_id) := by
    intro e he
    rcases List.mem_append.mp he with he | he
    · rcases List.mem_append.mp he with he | he
      · exact edgesUmls_endpoints _ _ e he
      · exact edgesSider_endpoints _ _ _ e he
    · exact edgesCtd_endpoints _ _ e he
  exact ⟨hper, mergeStageEdges_endpoints _ _
    (kgFix_buildCatalog mrsty mrconso rxn drugbank mesh) hper⟩

theorem DecNum.ltb_irrefl (a : DecNum) : a.ltb a = false := by
  simp [DecNum.ltb]

theorem DecNum.ltb_trans {a b c : DecNum} (h1 : a.ltb b = true)
    (h2 : b.ltb c = true) : a.ltb c = true := by
  simp only [DecNum.ltb, decide_eq_true_eq] at *
  have hp : (0 : Int) < 10 ^ b.exp := pow_pos (by norm_num) _
  have h1' := mul_lt_mul_of_pos_right h1
    (pow_pos (show (0 : Int) < 10 by norm_num) c.exp)
  have h2' := mul_lt_mul_of_pos_right h2
    (pow_pos (show (0 : Int) < 10 by norm_num) a.exp)
  have key : (a.num * 10 ^ c.exp) * 10 ^ b.exp
      < (c.num * 10 ^ a.exp) * 10 ^ b.exp := by
    calc (a.num * 10 ^ c.exp) * 10 ^ b.exp
        = a.num * 10 ^ b.exp * 10 ^ c.exp := by ring
      _ < b.num * 10 ^ a.exp * 10 ^ c.exp := h1'
      _ = b.num * 10 ^ c.exp * 10 ^ a.exp := by ring
      _ < c.num * 10 ^ b.exp * 10 ^ a.exp := h2'
      _ = (c.num * 10 ^ a.exp) * 10 ^ b.exp := by ring
  exact lt_of_mul_lt_mul_right key (le_of_lt hp)

theorem keyLt_irrefl (a : String × String × String) : keyLt a a = false := by
  simp [keyLt, strLt_irrefl]

theorem keyLt_trans {a b c : String × String × String} (h1 : keyLt a b = true)
    (h2 : keyLt b c = true) : keyLt a c = true := by
  simp only [keyLt, Bool.or_eq_true, Bool.and_eq_true, decide_eq_true_eq] at *
  rcases h1 with h1 | ⟨e1, h1⟩
  · rcases h2 with h2 | ⟨e2, h2⟩
    · exact Or.inl (strLt_trans h1 h2)
    · exact Or.inl (e2 ▸ h1)
  · rcases h2 with h2 | ⟨e2, h2⟩
    · exact Or.inl (e1 ▸ h2)
    · refine Or.inr ⟨e1.trans e2, ?_⟩
      rcases h1 with h1 | ⟨f1, h1⟩
      · rcases h2 with h2 | ⟨f2, h2⟩
        · exact Or.inl (strLt_trans h1 h2)
        · exact Or.inl (f2 ▸ h1)
      · rcases h2 with h2 | ⟨f2, h2⟩
        · exact Or.inl (f1 ▸ h2)
        · exact Or.inr ⟨f1.trans f2, strLt_trans h1 h2⟩

theorem keyLt_connex {a b : String × String × String} (h1 : keyLt a b = false)
    (h2 : keyLt b a = false) : a = b := by
  simp only [keyLt, Bool.or_eq_false_iff, Bool.and_eq_false_iff,
    decide_eq_false_iff_not] at h1 h2
  rcases h1 with ⟨ha1, hb1⟩
  rcases h2 with ⟨ha2, hb2⟩
  have e1 : a.1 = b.1 := strLt_connex ha1 ha2
  rcases hb1 with hb1 | hb1
  · exact absurd e1 hb1
  rcases hb2 with hb2 | hb2
  · exact absurd e1.symm hb2
  rcases hb1 with ⟨hc1, hd1⟩
  rcases hb2 with ⟨hc2, hd2⟩
  have e2 : a.2.1 = b.2.1 := strLt_connex hc1 hc2
  rcases hd1 with hd1 | hd1
  · exact absurd e2 hd1
  rcases hd2 with hd2 | hd2
  · exact absurd e2.symm hd2
  have e3 : a.2.2 = b.2.2 := strLt_connex hd1 hd2
  exact Prod.ext e1 (Prod.ext e2 e3)

theorem keyLt_asymm {a b : String × String × String} (h : keyLt a b = true) :
    keyLt b a = false := by
  by_contra hc
  have := keyLt_trans h (Bool.of_not_eq_false hc)
  rw [keyLt_irrefl] at this
  cases this

theorem keyLt_le_trans {a b c : String × String × String}
    (h1 : keyLt b a = false) (h2 : keyLt c b = false) : keyLt c a = false := by
  by_contra hc
  have hca := Bool.of_not_eq_false hc
  by_cases hab : keyLt a b = true
  · have := keyLt_trans hca hab
    rw [this] at h2
    cases h2
  · have := keyLt_connex (Bool.eq_false_iff.mpr hab) h1
    rw [this] at hca
    rw [hca] at h2
    cases h2

theorem mergedGet_nil (k : String × String × String) :
    mergedGet [] k = none := rfl

theorem mergedGet_append_of_some
    {m : List ((String × String × String) × MAcc)}
    {k : String × String × String} {a : MAcc}
    (l : List ((String × String × String) × MAcc))
    (h : mergedGet m k = some a) : mergedGet (m ++ l) k = some a := by
  induction m with
  | nil => rw [mergedGet_nil] at h; cases h
  | cons p ps ih =>
    rw [mergedGet_cons] at h
    rw [List.cons_append, mergedGet_cons]
    by_cases hk : p.1 = k
    · rw [if_pos hk] at h ⊢
      exact h
    · rw [if_neg hk] at h ⊢
      exact ih h

theorem mergedGet_append_of_none
    {m : List ((String × String × String) × MAcc)}
    {k : String × String × String}
    (l : List ((String × String × String) × MAcc))
    (h : mergedGet m k = none) : mergedGet (m ++ l) k = mergedGet l k := by
  induction m with
  | nil => rfl
  | cons p ps ih =>
    rw [mergedGet_cons] at h
    rw [List.cons_append, mergedGet_cons]
    by_cases hk : p.1 = k
    · rw [if_pos hk] at h
      cases h
    · rw [if_neg hk] at h ⊢
      exact ih h

theorem mergedGet_singleton (k0 k : String × String × String) (v : MAcc) :
    mergedGet [(k0, v)] k = if k0 = k then some v else none := by
  rw [mergedGet_cons, mergedGet_nil]

theorem mergedGet_put_self
    {m : List ((String × String × String) × MAcc)}
    {k : String × String × String} {a : MAcc} (v : MAcc)
    (h : mergedGet m k = some a) :
    mergedGet (mergedPut m k v) k = some v := by
  induction m with
  | nil => rw [mergedGet_nil] at h; cases h
  | cons p ps ih =>
    rw [mergedGet_cons] at h
    unfold mergedPut
    by_cases hk : p.1 = k
    · rw [if_pos hk, mergedGet_cons, if_pos rfl]
    · rw [if_neg hk] at h
      rw [if_neg hk, mergedGet_cons, if_neg hk]
      exact ih h

theorem mergedGet_put_other
    (m : List ((String × String × String) × MAcc))
    {k k2 : String × String × String} (v : MAcc) (h : k2 ≠ k) :
    mergedGet (mergedPut m k v) k2 = mergedGet m k2 := by
  induction m with
  | nil =>
    unfold mergedPut
    rw [mergedGet_singleton, if_neg (fun e => h e.symm), mergedGet_nil]
  | cons p ps ih =>
    unfold mergedPut
    by_cases hk : p.1 = k
    · have hpk2 : ¬ p.1 = k2 := by
        rw [hk]
        exact fun e => h e.symm
      rw [if_pos hk, mergedGet_cons, mergedGet_cons,
        if_neg (fun e => h e.symm), if_neg hpk2]
    · rw [if_neg hk, mergedGet_cons, mergedGet_cons]
      by_cases hp : p.1 = k2
      · rw [if_pos hp, if_pos hp]
      · rw [if_neg hp, if_neg hp]
        exact ih

theorem mergedPut_keys
    {m : List ((String × String × String) × MAcc)}
    {k : String × String × String} {a : MAcc} (v : MAcc)
    (h : mergedGet m k = some a) :
    (mergedPut m k v).map Prod.fst = m.map Prod.fst := by
  induction m with
  | nil => rw [mergedGet_nil] at h; cases h
  | cons p ps ih =>
    rw [mergedGet_cons] at h
    unfold mergedPut
    by_cases hk : p.1 = k
    · rw [if_pos hk]
      simp [hk]
    · rw [if_neg hk] at h
      rw [if_neg hk]
      simp only [List.map_cons]
      rw [ih h]

theorem mergedGet_of_mem_nodup
    {m : List ((String × String × String) × MAcc)}
    {k : String × String × String} {a : MAcc}
    (hnd : (m.map Prod.fst).Nodup) (h : (k, a) ∈ m) :
    mergedGet m k = some a := by
  induction m with
  | nil => cases h
  | cons p ps ih =>
    rw [mergedGet_cons]
    rcases List.mem_cons.mp h with h | h
    · rw [if_pos (by rw [← h])]
      rw [← h]
    · have hpk : p.1 ≠ k := by
        intro e
        have : k ∈ ps.map Prod.fst := List.mem_map.mpr ⟨(k, a), h, rfl⟩
        rw [List.map_cons, List.nodup_cons] at hnd
        exact hnd.1 (e ▸ this)
      rw [if_neg hpk]
      rw [List.map_cons, List.nodup_cons] at hnd
      exact ih hnd.2 h

theorem filter_addSet_congr {s t : List String} (x : String)
    (h : s.filter (fun y => y ≠ "") = t.filter (fun y => y ≠ "")) :
    (addSet s x).filter (fun y => y ≠ "")
      = (addSet t x).filter (fun y => y ≠ "") := by
  by_cases hx : x = ""
  · subst hx
    unfold addSet
    have hs : (s ++ [""]).filter (fun y => y ≠ "") = s.filter (fun y => y ≠ "") := by
      rw [List.filter_append]
      simp
    have ht : (t ++ [""]).filter (fun y => y ≠ "") = t.filter (fun y => y ≠ "") := by
      rw [List.filter_append]
      simp
    by_cases hins : "" ∈ s <;> by_cases hint : "" ∈ t <;>
      simp only [if_pos, if_neg, hins, hint, ite_true, ite_false, hs, ht, h]
  · have hmem : x ∈ s ↔ x ∈ t := by
      constructor
      · intro hxs
        have : x ∈ s.filter (fun y => y ≠ "") :=
          List.mem_filter.mpr ⟨hxs, by simp [hx]⟩
        rw [h] at this
        exact (List.mem_filter.mp this).1
      · intro hxt
        have : x ∈ t.filter (fun y => y ≠ "") :=
          List.mem_filter.mpr ⟨hxt, by simp [hx]⟩
        rw [← h] at this
        exact (List.mem_filter.mp this).1
    unfold addSet
    by_cases hxs : x ∈ s
    · rw [if_pos hxs, if_pos (hmem.mp hxs)]
      exact h
    · rw [if_neg hxs, if_neg (fun hxt => hxs (hmem.mpr hxt))]
      rw [List.filter_append, List.filter_append]
      have : [x].filter (fun y => y ≠ "") = [x] := by simp [hx]
      rw [this, h]

theorem listToSet_append_single (l : List String) (x : String) :
    listToSet (l ++ [x]) = addSet (listToSet l) x := by
  unfold listToSet
  rw [List.foldl_append]
  rfl

/-- Semantics of one accumulated merge entry against the parsed rows
consumed so far: the key components are the stored h/r/t, at least one
row matched, the source and evidence sets agree (up to empty strings)
with the set of the whole matching source/evidence fields, and the score
is a maximum of the matching scores. -/
def MEntrySem (ps : List PRow) (k : String × String × String) (acc : MAcc) :
    Prop :=
  acc.h = k.1 ∧ acc.r = k.2.1 ∧ acc.t = k.2.2
  ∧ ps.filter (fun p => prowKey p = k) ≠ []
  ∧ acc.source.filter (fun y => y ≠ "")
      = (listToSet ((ps.filter (fun p => prowKey p = k)).map
          (fun p => p.src))).filter (fun y => y ≠ "")
  ∧ acc.evidence.filter (fun y => y ≠ "")
      = (listToSet ((ps.filter (fun p => prowKey p = k)).map
          (fun p => p.ev))).filter (fun y => y ≠ "")
  ∧ acc.score ∈ (ps.filter (fun p => prowKey p = k)).map (fun p => p.score)
  ∧ ∀ s ∈ (ps.filter (fun p => prowKey p = k)).map (fun p => p.score),
      acc.score.ltb s = false

/-- Invariant of the merge loop of stage 05 over the rows consumed so
far. -/
def MergeInv (seen : List PRow)
    (m : List ((String × String × String) × MAcc)) : Prop :=
  (m.map Prod.fst).Nodup
  ∧ (∀ k acc, mergedGet m k = some acc → MEntrySem seen k acc)
  ∧ (∀ k, mergedGet m k = none → seen.filter (fun p => prowKey p = k) = [])

theorem filter_append_single_pos (seen : List PRow) (row : PRow)
    (k : String × String × String) (h : prowKey row = k) :
    (seen ++ [row]).filter (fun p => prowKey p = k)
      = seen.filter (fun p => prowKey p = k) ++ [row] := by
  rw [List.filter_append]
  simp [h]

theorem filter_append_single_neg (seen : List PRow) (row : PRow)
    (k : String × String × String) (h : prowKey row ≠ k) :
    (seen ++ [row]).filter (fun p => prowKey p = k)
      = seen.filter (fun p => prowKey p = k) := by
  rw [List.filter_append]
  simp [h]

theorem mEntrySem_extend_neg {seen : List PRow} {row : PRow}
    {k : String × String × String} {acc : MAcc} (h : prowKey row ≠ k)
    (hs : MEntrySem seen k acc) : MEntrySem (seen ++ [row]) k acc := by
  unfold MEntrySem at *
  rw [filter_append_single_neg seen row k h]
  exact hs

theorem mergeInv_step (seen : List PRow)
    (m : List ((String × String × String) × MAcc)) (row : PRow)
    (h : MergeInv seen m) : MergeInv (seen ++ [row]) (mergeStep m row) := by
  rcases h with ⟨hnd, hsem, hnone⟩
  unfold mergeStep
  dsimp only
  cases hget : mergedGet m (row.h, row.r, row.t) with
  | none =>
    dsimp only
    refine ⟨?_, ?_, ?_⟩
    · rw [List.map_append]
      rw [List.nodup_append]
      refine ⟨hnd, by simp, ?_⟩
      intro k hk hk2
      simp only [List.map_cons, List.map_nil, List.mem_singleton] at hk2
      rcases List.mem_map.mp hk with ⟨entry, hent, hfst⟩
      have : mergedGet m entry.1 = some entry.2 := mergedGet_of_mem_nodup hnd
        (by rw [show (entry.1, entry.2) = entry from rfl]; exact hent)
      rw [hfst, hk2, hget] at this
      cases this
    · intro k acc hk
      cases hget2 : mergedGet m k with
      | some a =>
        rw [mergedGet_append_of_some _ hget2] at hk
        injection hk with hk
        subst hk
        have hne : prowKey row ≠ k := by
          intro e
          have h2 : mergedGet m (row.h, row.r, row.t) = some a := by
            have e2 : ((row.h, row.r, row.t) : String × String × String) = k := e
            rw [e2]
            exact hget2
          rw [hget] at h2
          cases h2
        exact mEntrySem_extend_neg hne (hsem k a hget2)
      | none =>
        rw [mergedGet_append_of_none _ hget2, mergedGet_singleton] at hk
        by_cases hke : (row.h, row.r, row.t) = k
        · rw [if_pos hke] at hk
          injection hk with hk
          subst hk
          have hkey : prowKey row = k := hke
          have hfil := hnone k hget2
          unfold MEntrySem
          rw [filter_append_single_pos seen row k hkey, hfil]
          dsimp only [List.nil_append]
          refine ⟨by rw [← hke], by rw [← hke], by rw [← hke], by simp, ?_, ?_, ?_, ?_⟩
          · by_cases hsrc : row.src = "" <;>
              simp [hsrc, listToSet, addSet]
          · by_cases hev : row.ev = "" <;>
              simp [hev, listToSet, addSet]
          · simp
          · intro s hs
            simp only [List.map_cons, List.map_nil, List.mem_singleton] at hs
            rw [hs]
            exact DecNum.ltb_irrefl _
        · rw [if_neg hke] at hk
          cases hk
    · intro k hk
      cases hget2 : mergedGet m k with
      | some a =>
        rw [mergedGet_append_of_some _ hget2] at hk
        cases hk
      | none =>
        rw [mergedGet_append_of_none _ hget2, mergedGet_singleton] at hk
        by_cases hke : (row.h, row.r, row.t) = k
        · rw [if_pos hke] at hk
          cases hk
        · rw [if_neg hke] at hk
          rw [filter_append_single_neg seen row k hke, hnone k hget2]
  | some acc =>
    dsimp only
    refine ⟨?_, ?_, ?_⟩
    · rw [mergedPut_keys _ hget]
      exact hnd
    · intro k acc2 hk
      by_cases hke : (row.h, row.r, row.t) = k
      · subst hke
        rw [mergedGet_put_self _ hget] at hk
        injection hk with hk
        subst hk
        have hold := hsem _ acc hget
        rcases hold with ⟨hh, hr, ht, hne, hsrc, hev, hmem, hmax⟩
        have hkey : prowKey row = (row.h, row.r, row.t) := rfl
        unfold MEntrySem
        rw [filter_append_single_pos seen row _ hkey]
        refine ⟨hh, hr, ht, by simp, ?_, ?_, ?_, ?_⟩
        · dsimp only
          rw [List.map_append, List.map_cons, List.map_nil,
            listToSet_append_single]
          exact filter_addSet_congr row.src hsrc
        · dsimp only
          rw [List.map_append, List.map_cons, List.map_nil,
            listToSet_append_single]
          exact filter_addSet_congr row.ev hev
        · dsimp only
          rw [List.map_append, List.map_cons, List.map_nil]
          by_cases hlt : acc.score.ltb row.score = true
          · rw [if_pos hlt]
            exact List.mem_append_right _ (List.mem_singleton.mpr rfl)
          · rw [if_neg hlt]
            exact List.mem_append_left _ hmem
        · dsimp only
          rw [List.map_append, List.map_cons, List.map_nil]
          intro s hs
          rcases List.mem_append.mp hs with hs | hs
          · by_cases hlt : acc.score.ltb row.score = true
            · rw [if_pos hlt]
              by_contra hc
              have := DecNum.ltb_trans hlt (Bool.of_not_eq_false hc)
              rw [hmax s hs] at this
              cases this
            · rw [if_neg hlt]
              exact hmax s hs
          · rw [List.mem_singleton.mp hs]
            by_cases hlt : acc.score.ltb row.score = true
            · rw [if_pos hlt]
              exact DecNum.ltb_irrefl _
            · rw [if_neg hlt]
              exact Bool.eq_false_iff.mpr hlt
      · rw [mergedGet_put_other _ _ (fun e => hke e.symm)] at hk
        exact mEntrySem_extend_neg hke (hsem k acc2 hk)
    · intro k hk
      by_cases hke : (row.h, row.r, row.t) = k
      · subst hke
        rw [mergedGet_put_self _ hget] at hk
        cases hk
      · rw [mergedGet_put_other _ _ (fun e => hke e.symm)] at hk
        rw [filter_append_single_neg seen row k hke, hnone k hk]

theorem mergeInv_fold :
    ∀ (todo seen : List PRow) (m : List ((String × String × String) × MAcc)),
      MergeInv seen m → MergeInv (seen ++ todo) (todo.foldl mergeStep m)
  | [], seen, m, h => by simpa using h
  | r :: rs, seen, m, h => by
    have h3 := mergeInv_fold rs (seen ++ [r]) (mergeStep m r)
      (mergeInv_step seen m r h)
    rw [List.foldl_cons]
    simpa [List.append_assoc] using h3

theorem mergeParsed_inv (ps : List PRow) : MergeInv ps (mergeParsed ps) := by
  have hbase : MergeInv [] [] := by
    refine ⟨by simp, ?_, ?_⟩
    · intro k acc hk
      rw [mergedGet_nil] at hk
      cases hk
    · intro k hk
      simp
  have := mergeInv_fold ps [] [] hbase
  simpa [mergeParsed] using this

/-- C3 (counterexample): stage 05 does not split source or evidence
fields on the pipe before uniting them.  Two rows with the same key,
evidence fields "x|y" and "y", merge into a single row whose evidence
is the whole-field union "x|y|y"; its pipe tokens are not
duplicate-free. -/
theorem c3_source_tokens_not_split :
    mergeEdges [⟨"a", "R", "b", "SIDER", "0.9", "x|y"⟩,
        ⟨"a", "R", "b", "CTD", "0.75", "y"⟩]
      = [⟨"a", "R", "b", "CTD|SIDER", "0.9000", "x|y|y"⟩]
    ∧ splitPipe "x|y|y" = ["x", "y", "y"]
    ∧ ¬ (splitPipe "x|y|y").Nodup :=
  ⟨by decide, by decide, by decide⟩

/-- C3 (amended): in the stage 05 merger, all parsed rows sharing one
(head, relation, tail) key collapse to one output row; the merged rows
are strictly sorted by key (hence keys are duplicate-free) and a key
appears in the output iff some parsed row carries it; each output row's
source is the pipe-join of the sorted duplicate-free set of the whole
source fields of its matching rows (empties dropped, no splitting on
the pipe), likewise evidence, and its score is the maximum matching
score formatted with 4 decimal places. -/
theorem c3_merge_semantics (rows : List CsvRow) :
    List.Pairwise (fun a b => keyLt (mergedRowKey a) (mergedRowKey b) = true)
      (mergeEdges rows)
    ∧ (∀ k, (∃ r ∈ mergeEdges rows, mergedRowKey r = k)
        ↔ ∃ p ∈ readEdges rows, prowKey p = k)
    ∧ (∀ r ∈ mergeEdges rows,
        r.source = pipeJoin (sortStr
          ((listToSet (((readEdges rows).filter
              (fun p => prowKey p = mergedRowKey r)).map (fun p => p.src))).filter
            (fun y => y ≠ "")))
        ∧ r.evidence = pipeJoin (sortStr
          ((listToSet (((readEdges rows).filter
              (fun p => prowKey p = mergedRowKey r)).map (fun p => p.ev))).filter
            (fun y => y ≠ "")))
        ∧ ∃ p ∈ (readEdges rows).filter (fun p => prowKey p = mergedRowKey r),
            r.score = format4 p.score
            ∧ ∀ q ∈ (readEdges rows).filter (fun p => prowKey p = mergedRowKey r),
                p.score.ltb q.score = false) := by
  rcases mergeParsed_inv (readEdges rows) with ⟨hnd, hsem, hnone⟩
  have hsortpw : List.Pairwise
      (fun (a b : (String × String × String) × MAcc) => keyLt b.1 a.1 = false)
      (sortOrd (fun a b => keyLt a.1 b.1) (mergeParsed (readEdges rows))) :=
    sortOrd_pairwise
      (fun (a b : (String × String × String) × MAcc) => keyLt a.1 b.1)
      (fun h => keyLt_asymm h) (fun h1 h2 => keyLt_le_trans h1 h2)
      (mergeParsed (readEdges rows))
  have hkeysnd : (((sortOrd (fun a b => keyLt a.1 b.1)
      (mergeParsed (readEdges rows))).map Prod.fst)).Nodup := by
    have hperm := (sortOrd_perm (fun (a b : (String × String × String) × MAcc) =>
      keyLt a.1 b.1) (mergeParsed (readEdges rows))).map Prod.fst
    exact hperm.nodup_iff.mpr hnd
  have hpairneq : List.Pairwise (fun (a b : (String × String × String) × MAcc) =>
      a.1 ≠ b.1) (sortOrd (fun a b => keyLt a.1 b.1)
        (mergeParsed (readEdges rows))) :=
    List.pairwise_map.mp hkeysnd
  have hstrict : List.Pairwise (fun (a b : (String × String × String) × MAcc) =>
      keyLt a.1 b.1 = true) (sortOrd (fun a b => keyLt a.1 b.1)
        (mergeParsed (readEdges rows))) := by
    refine (hsortpw.and hpairneq).imp ?_
    rintro a b ⟨hba, hne⟩
    by_contra hc
    exact hne (keyLt_connex (Bool.eq_false_iff.mpr hc) hba)
  have hfix : ∀ q ∈ sortOrd (fun (a b : (String × String × String) × MAcc) =>
      keyLt a.1 b.1) (mergeParsed (readEdges rows)),
      (q.2.h, q.2.r, q.2.t) = q.1 := by
    intro q hq
    have hqm : q ∈ mergeParsed (readEdges rows) := mem_sortOrd.mp hq
    have hget : mergedGet (mergeParsed (readEdges rows)) q.1 = some q.2 :=
      mergedGet_of_mem_nodup hnd hqm
    rcases hsem q.1 q.2 hget with ⟨hh, hr, ht, _⟩
    rw [hh, hr, ht]
  refine ⟨?_, ?_, ?_⟩
  · show List.Pairwise _ (emitMerged (mergeParsed (readEdges rows)))
    unfold emitMerged
    rw [List.pairwise_map]
    refine List.Pairwise.imp_of_mem ?_ hstrict
    intro a b ha hb hlt
    show keyLt (a.2.h, a.2.r, a.2.t) (b.2.h, b.2.r, b.2.t) = true
    rw [hfix a ha, hfix b hb]
    exact hlt
  · intro k
    constructor
    · rintro ⟨r, hr, hk⟩
      rcases List.mem_map.mp hr with ⟨q, hq, hpr⟩
      have hqm : q ∈ mergeParsed (readEdges rows) := mem_sortOrd.mp hq
      have hget : mergedGet (mergeParsed (readEdges rows)) q.1 = some q.2 :=
        mergedGet_of_mem_nodup hnd hqm
      rcases hsem q.1 q.2 hget with ⟨_, _, _, hne, _⟩
      rcases List.exists_mem_of_ne_nil _ hne with ⟨p, hp⟩
      rcases List.mem_filter.mp hp with ⟨hps, hpk⟩
      refine ⟨p, hps, ?_⟩
      have hkey : mergedRowKey r = q.1 := by
        rw [← hpr]
        exact hfix q hq
      rw [← hk, hkey]
      exact of_decide_eq_true hpk
    · rintro ⟨p, hp, hk⟩
      cases hget : mergedGet (mergeParsed (readEdges rows)) k with
      | none =>
        have hfil := hnone k hget
        have : p ∈ (readEdges rows).filter (fun p => prowKey p = k) :=
          List.mem_filter.mpr ⟨hp, decide_eq_true hk⟩
        rw [hfil] at this
        cases this
      | some acc =>
        have hmem : (k, acc) ∈ mergeParsed (readEdges rows) := mergedGet_mem hget
        have hq : (k, acc) ∈ sortOrd (fun (a b : (String × String × String) × MAcc) =>
            keyLt a.1 b.1) (mergeParsed (readEdges rows)) := mem_sortOrd.mpr hmem
        refine ⟨⟨acc.h, acc.r, acc.t,
          pipeJoin (sortStr (acc.source.filter (fun x => x ≠ ""))),
          format4 acc.score,
          pipeJoin (sortStr (acc.evidence.filter (fun x => x ≠ "")))⟩,
          ?_, ?_⟩
        · exact List.mem_map.mpr ⟨(k, acc), hq, rfl⟩
        · exact hfix (k, acc) hq
  · intro r hr
    rcases List.mem_map.mp hr with ⟨q, hq, hpr⟩
    have hqm : q ∈ mergeParsed (readEdges rows) := mem_sortOrd.mp hq
    have hget : mergedGet (mergeParsed (readEdges rows)) q.1 = some q.2 :=
      mergedGet_of_mem_nodup hnd hqm
    rcases hsem q.1 q.2 hget with ⟨_, _, _, _, hsrc, hev, hmem, hmax⟩
    have hkey : mergedRowKey r = q.1 := by
      rw [← hpr]
      exact hfix q hq
    have hrsrc : r.source = pipeJoin (sortStr
        (q.2.source.filter (fun y => y ≠ ""))) := by
      rw [← hpr]
    have hrev : r.evidence = pipeJoin (sortStr
        (q.2.evidence.filter (fun y => y ≠ ""))) := by
      rw [← hpr]
    have hrscore : r.score = format4 q.2.score := by
      rw [← hpr]
    refine ⟨?_, ?_, ?_⟩
    · rw [hrsrc, hkey, hsrc]
    · rw [hrev, hkey, hev]
    · rw [hkey]
      rcases List.mem_map.mp hmem with ⟨p, hp, hps⟩
      refine ⟨p, hp, ?_, ?_⟩
      · rw [hrscore, hps]
      · intro q2 hq2
        have := hmax q2.score (List.mem_map.mpr ⟨q2, hq2, rfl⟩)
        rw [← hps] at this
        exact this
